import Mathlib

/-!
Verification development for the Strollcast synthesis-cache-assembly core.

JavaScript strings are modelled as lists of UTF-16 code units (`JsStr :=
List Nat`); `charCodeAt`, slicing and regex scanning all operate on code
units exactly as in the source.  Go strings, which are only compared for
emptiness/equality here, are modelled as Lean `String`.  JavaScript
numbers that only flow through `toString` / `parseFloat` are modelled as
exact rationals with an explicit decimal encode/decode pair.
-/

/-- A JavaScript string: a list of UTF-16 code units. -/
abbrev JsStr := List Nat

/-- Embed an ASCII/BMP Lean string literal as a JS string. -/
def jstr (s : String) : JsStr := s.data.map Char.toNat

/-- JS whitespace (the class `\s`, also used by `String.prototype.trim`):
WhiteSpace plus LineTerminator code points. -/
def isJsWs (c : Nat) : Bool :=
  c = 0x20 || c = 0x09 || c = 0x0A || c = 0x0B || c = 0x0C || c = 0x0D ||
  c = 0xA0 || c = 0x1680 || (0x2000 ≤ c && c ≤ 0x200A) ||
  c = 0x2028 || c = 0x2029 || c = 0x202F || c = 0x205F || c = 0x3000 || c = 0xFEFF

/-- JS line terminators (excluded by the regex `.`). -/
def isLineTerm (c : Nat) : Bool :=
  c = 0x0A || c = 0x0D || c = 0x2028 || c = 0x2029

/-- Uppercase ASCII letter, the regex class `[A-Z]`. -/
def isUpperAZ (c : Nat) : Bool := 0x41 ≤ c && c ≤ 0x5A

/-- Alphanumeric ASCII, the regex class `[a-zA-Z0-9]`. -/
def isAlnum (c : Nat) : Bool :=
  (0x30 ≤ c && c ≤ 0x39) || (0x41 ≤ c && c ≤ 0x5A) || (0x61 ≤ c && c ≤ 0x7A)

/-- `String.prototype.trim`: drop JS whitespace at both ends. -/
def trimJs (s : JsStr) : JsStr :=
  ((s.dropWhile isJsWs).reverse.dropWhile isJsWs).reverse

/-- `scriptContent.split("\n")`: split on the code unit 10.  JS yields
`[""]` on the empty string, which this definition reproduces. -/
def splitLines (s : JsStr) : List JsStr :=
  match s with
  | [] => [[]]
  | c :: rest =>
    if c = 10 then [] :: splitLines rest
    else
      match splitLines rest with
      | [] => [[c]]
      | l :: ls => (c :: l) :: ls

/-- `(l.dropWhile p).length ≤ l.length`, used for termination. -/
theorem dropWhile_length_le (p : Nat → Bool) (l : List Nat) :
    (l.dropWhile p).length ≤ l.length := by
  induction l with
  | nil => simp
  | cons c rest ih =>
    rw [List.dropWhile_cons]
    split
    · simp only [List.length_cons]; omega
    · simp

/-- One attempt of `/\*\*([A-Z]+):\*\*\s*(.*)/` at the start of `s`:
`**`, a maximal nonempty `[A-Z]+` run (backtracking cannot shorten it,
since the required `:` is not uppercase), `:**`, greedy `\s*`, then `(.*)`
up to the first line terminator. -/
def speakerMatchAt (s : JsStr) : Option (JsStr × JsStr) :=
  match s with
  | a :: b :: rest =>
    if a = 42 ∧ b = 42 then
      let run := rest.takeWhile isUpperAZ
      if run.length ≠ 0 ∧ (rest.drop run.length).take 3 = [58, 42, 42] then
        some (run,
          ((rest.drop (run.length + 3)).dropWhile isJsWs).takeWhile
            (fun c => !isLineTerm c))
      else none
    else none
  | _ => none

/-- `trimmed.match(/\*\*([A-Z]+):\*\*\s*(.*)/)`: leftmost match. -/
def findSpeakerMatch (s : JsStr) : Option (JsStr × JsStr) :=
  match s with
  | [] => none
  | c :: rest =>
    match speakerMatchAt (c :: rest) with
    | some r => some r
    | none => findSpeakerMatch rest

/-- A match of `/\{\{[^\x7d]+\}\}/` at the start of `s`, returning the
suffix after the match. -/
def dblBraceMatchAt (s : JsStr) : Option JsStr :=
  match s with
  | a :: b :: rest =>
    if a = 123 ∧ b = 123 then
      let n := (rest.takeWhile (fun c => c ≠ 125)).length
      if n ≠ 0 ∧ (rest.drop n).take 2 = [125, 125] then some (rest.drop (n + 2))
      else none
    else none
  | _ => none

/-- Fuel-driven worker for `removeDblBrace`; each step consumes at least
one code unit, so fuel equal to the length is exact. -/
def removeDblBraceAux : Nat → JsStr → JsStr
  | 0, _ => []
  | _ + 1, [] => []
  | fuel + 1, c :: rest =>
    match dblBraceMatchAt (c :: rest) with
    | some rest2 => removeDblBraceAux fuel rest2
    | none => c :: removeDblBraceAux fuel rest

/-- `text.replace(/\{\{[^\x7d]+\}\}/g, "")`: scan left to right, skipping
each leftmost match. -/
def removeDblBrace (s : JsStr) : JsStr := removeDblBraceAux s.length s

/-- A match of `/\*\*\[[^\x5d]*\]\*\*/` at the start of `s`. -/
def boldBracketMatchAt (s : JsStr) : Option JsStr :=
  match s with
  | a :: b :: c :: rest =>
    if a = 42 ∧ b = 42 ∧ c = 91 then
      let n := (rest.takeWhile (fun c => c ≠ 93)).length
      if (rest.drop n).take 3 = [93, 42, 42] then some (rest.drop (n + 3))
      else none
    else none
  | _ => none

/-- Fuel-driven worker for `removeBoldBracket`. -/
def removeBoldBracketAux : Nat → JsStr → JsStr
  | 0, _ => []
  | _ + 1, [] => []
  | fuel + 1, c :: rest =>
    match boldBracketMatchAt (c :: rest) with
    | some rest2 => removeBoldBracketAux fuel rest2
    | none => c :: removeBoldBracketAux fuel rest

/-- `text.replace(/\*\*\[[^\x5d]*\]\*\*/g, "")`. -/
def removeBoldBracket (s : JsStr) : JsStr := removeBoldBracketAux s.length s

/-- A match of `/\[[^\x5d]*\]/` at the start of `s`. -/
def bracketMatchAt (s : JsStr) : Option JsStr :=
  match s with
  | a :: rest =>
    if a = 91 then
      let n := (rest.takeWhile (fun c => c ≠ 93)).length
      if (rest.drop n).take 1 = [93] then some (rest.drop (n + 1))
      else none
    else none
  | _ => none

/-- Fuel-driven worker for `removeBracket`. -/
def removeBracketAux : Nat → JsStr → JsStr
  | 0, _ => []
  | _ + 1, [] => []
  | fuel + 1, c :: rest =>
    match bracketMatchAt (c :: rest) with
    | some rest2 => removeBracketAux fuel rest2
    | none => c :: removeBracketAux fuel rest

/-- `text.replace(/\[[^\x5d]*\]/g, "")`. -/
def removeBracket (s : JsStr) : JsStr := removeBracketAux s.length s

/-- `text.replace(/\*\*/g, "")`. -/
def removeDoubleStar (s : JsStr) : JsStr :=
  match s with
  | [] => []
  | 42 :: 42 :: rest => removeDoubleStar rest
  | c :: rest => c :: removeDoubleStar rest

/-- `text.replace(/\*/g, "")`. -/
def removeStar (s : JsStr) : JsStr := s.filter (fun c => c ≠ 42)

/-- Fuel-driven worker for `collapseWs`. -/
def collapseWsAux : Nat → JsStr → JsStr
  | 0, _ => []
  | _ + 1, [] => []
  | fuel + 1, c :: rest =>
    if isJsWs c then 32 :: collapseWsAux fuel (rest.dropWhile isJsWs)
    else c :: collapseWsAux fuel rest

/-- `text.replace(/\s+/g, " ")`: each maximal whitespace run becomes one
space. -/
def collapseWs (s : JsStr) : JsStr := collapseWsAux s.length s

/-- The cleanup pipeline applied to a captured speaker text in
`parseScript` (source lines 37–41). -/
def cleanText (s : JsStr) : JsStr :=
  trimJs (collapseWs (removeStar (removeDoubleStar
    (removeBracket (removeBoldBracket (removeDblBrace s))))))

/-- A script segment: speaker name and optional text (`null` for pauses). -/
structure Segment where
  speaker : JsStr
  text : Option JsStr
deriving DecidableEq, Repr

/-- Processing of one line of the script inside `parseScript`'s loop:
returns the segment pushed for that line, if any. -/
def processLine (line : JsStr) : Option Segment :=
  let trimmed := trimJs line
  if trimmed.isEmpty then none
  else
    match findSpeakerMatch trimmed with
    | some (speaker, raw) =>
      let text := cleanText raw
      if !text.isEmpty && (speaker = jstr "ERIC" || speaker = jstr "MAYA") then
        some ⟨speaker, some text⟩
      else none
    | none =>
      if trimmed.take 4 = jstr "## [" then some ⟨jstr "PAUSE", none⟩
      else none

/-- `parseScript`: split on newlines and process each line in order. -/
def parseScript (scriptContent : JsStr) : List Segment :=
  (splitLines scriptContent).filterMap processLine

/-! ### Segment fingerprint generator (`computeCacheKey`) -/

/-- The TTS provider union type. -/
inductive TTSProvider where
  | elevenlabs
  | inworld
deriving DecidableEq, Repr

/-- The provider string as it appears in keys and serialized data. -/
def providerStr : TTSProvider → JsStr
  | .elevenlabs => jstr "elevenlabs"
  | .inworld => jstr "inworld"

/-- `provider === "elevenlabs" ? ELEVENLABS_MODEL_ID : INWORLD_MODEL_ID`. -/
def modelIdStr : TTSProvider → JsStr
  | .elevenlabs => jstr "eleven_turbo_v2_5"
  | .inworld => jstr "inworld-tts-1"

/-- The cache format version constant. -/
def cacheVersion : Nat := 3

/-- ECMAScript `ToInt32`: reduce an exact integer into `[-2^31, 2^31)`. -/
def toInt32 (x : Int) : Int := (x + 2 ^ 31) % 2 ^ 32 - 2 ^ 31

/-- Four lowercase hex digits (used by `\uXXXX` escapes). -/
def hexDigitChar (d : Nat) : Nat := if d < 10 then 48 + d else 87 + d

/-- `\uXXXX`-style fixed-width hex, most significant digit first. -/
def hex4 (n : Nat) : JsStr :=
  [hexDigitChar (n / 4096 % 16), hexDigitChar (n / 256 % 16),
   hexDigitChar (n / 16 % 16), hexDigitChar (n % 16)]

/-- `JSON.stringify` escaping of one string value (ECMA-262
`QuoteJSONString`), over UTF-16 code units: quote and backslash get a
backslash escape, the named control characters their two-character
escapes, remaining code units below 0x20 and lone surrogates a `\uXXXX`
escape; everything else is copied verbatim (a high surrogate directly
followed by a low surrogate is a well-formed pair and is copied). -/
def jsonEscapeAux : Nat → JsStr → JsStr
  | 0, _ => []
  | _ + 1, [] => []
  | fuel + 1, c :: rest =>
    if c = 34 then 92 :: 34 :: jsonEscapeAux fuel rest
    else if c = 92 then 92 :: 92 :: jsonEscapeAux fuel rest
    else if c = 8 then 92 :: 98 :: jsonEscapeAux fuel rest
    else if c = 9 then 92 :: 116 :: jsonEscapeAux fuel rest
    else if c = 10 then 92 :: 110 :: jsonEscapeAux fuel rest
    else if c = 12 then 92 :: 102 :: jsonEscapeAux fuel rest
    else if c = 13 then 92 :: 114 :: jsonEscapeAux fuel rest
    else if c < 32 then 92 :: 117 :: (hex4 c ++ jsonEscapeAux fuel rest)
    else if 0xD800 ≤ c ∧ c ≤ 0xDBFF then
      match rest with
      | d :: rest2 =>
        if 0xDC00 ≤ d ∧ d ≤ 0xDFFF then c :: d :: jsonEscapeAux fuel rest2
        else 92 :: 117 :: (hex4 c ++ jsonEscapeAux fuel (d :: rest2))
      | [] => 92 :: 117 :: hex4 c
    else if 0xDC00 ≤ c ∧ c ≤ 0xDFFF then 92 :: 117 :: (hex4 c ++ jsonEscapeAux fuel rest)
    else c :: jsonEscapeAux fuel rest

/-- `JSON.stringify` string escaping, with fuel equal to the length
(every step consumes at least one code unit). -/
def jsonEscape (s : JsStr) : JsStr := jsonEscapeAux s.length s

/-- A JSON string literal: `"` + escaped contents + `"`. -/
def jsonQuote (s : JsStr) : JsStr := 34 :: jsonEscape s ++ [34]

/-- Fuel-driven worker for `natDecDigits`; fuel `f` is sufficient for
every `n < 10 ^ f`. -/
def natDecAux : Nat → Nat → JsStr
  | 0, _ => []
  | fuel + 1, n =>
    if n < 10 then [48 + n]
    else natDecAux fuel (n / 10) ++ [48 + n % 10]

/-- Decimal digit code units of `n`, most significant first. -/
def natDecDigits (n : Nat) : JsStr := natDecAux (n + 1) n

/-- The canonical serialization built by `computeCacheKey`:
`JSON.stringify(\x7b text, voice_id, model_id, provider, version \x7d, sortedKeys)`
with the replacer array `["model_id","provider","text","version","voice_id"]`
(the insertion keys sorted lexicographically), so the properties appear
in exactly that order; `version` serializes as the number `3`. -/
def cacheData (text voiceId : JsStr) (provider : TTSProvider) : JsStr :=
  [123] ++
  jsonQuote (jstr "model_id") ++ [58] ++ jsonQuote (modelIdStr provider) ++ [44] ++
  jsonQuote (jstr "provider") ++ [58] ++ jsonQuote (providerStr provider) ++ [44] ++
  jsonQuote (jstr "text") ++ [58] ++ jsonQuote text ++ [44] ++
  jsonQuote (jstr "version") ++ [58] ++ natDecDigits cacheVersion ++ [44] ++
  jsonQuote (jstr "voice_id") ++ [58] ++ jsonQuote voiceId ++
  [125]

/-- The rolling hash loop: `hash = (hash << 5) - hash + charCodeAt(i);
hash = hash & hash` — a shift producing an int32, an exact
subtract/add, then `& hash` truncating back to int32. -/
def rollHash (s : JsStr) : Int :=
  s.foldl (fun h c => toInt32 (toInt32 (h * 32) - h + (c : Int))) 0

/-- Fuel-driven worker for `jsHex`; fuel `f` is sufficient for every
`n < 16 ^ f`. -/
def jsHexAux : Nat → Nat → JsStr
  | 0, _ => []
  | fuel + 1, n =>
    if n < 16 then [hexDigitChar n]
    else jsHexAux fuel (n / 16) ++ [hexDigitChar (n % 16)]

/-- `Number.prototype.toString(16)` for a nonnegative integer: lowercase
hex digits, no leading zeros, `"0"` for zero. -/
def jsHex (n : Nat) : JsStr := jsHexAux (n + 1) n

/-- `String.prototype.padStart(8, "0")`. -/
def padStart8 (s : JsStr) : JsStr := List.replicate (8 - s.length) 48 ++ s

/-- `text.slice(-10)`: the last (up to) 10 code units. -/
def sliceLast10 (text : JsStr) : JsStr := text.drop (text.length - 10)

/-- `truncated = text.slice(0, 20) + "_" + text.slice(-10)` followed by
`truncated.replace(/[^a-zA-Z0-9]/g, "")`. -/
def sanitizedFragment (text : JsStr) : JsStr :=
  (text.take 20 ++ [95] ++ sliceLast10 text).filter isAlnum

/-- The `Math.abs(hash).toString(16).padStart(8, "0")` component. -/
def hexHash (text voiceId : JsStr) (provider : TTSProvider) : JsStr :=
  padStart8 (jsHex (rollHash (cacheData text voiceId provider)).natAbs)

/-- `computeCacheKey` (src/api/src/audio.ts lines 59–89). -/
def computeCacheKey (text voiceId : JsStr) (provider : TTSProvider) : JsStr :=
  natDecDigits cacheVersion ++ [47] ++ (sanitizedFragment text).take 2 ++ [47] ++
  hexHash text voiceId provider ++ [95] ++ providerStr provider ++ [95] ++
  sanitizedFragment text

/-! ### JS number to/from string

A finite JS float is a dyadic rational and converts to a string as an
exact decimal; `parseFloat` of that string recovers the same value.  The
model therefore represents durations as rationals with finite decimal
expansion, `Number.prototype.toString` as exact shortest decimal
notation, and `parseFloat` as an exact decimal parser. -/

/-- ASCII decimal digit. -/
def isDigit (c : Nat) : Bool := 48 ≤ c && c ≤ 57

/-- Numeric value of a list of decimal digit code units. -/
def decValue (ds : JsStr) : Nat := ds.foldl (fun a c => a * 10 + (c - 48)) 0

/-- Fuel-driven worker for `powIn`. -/
def powInAux : Nat → Nat → Nat → Nat
  | 0, _, _ => 0
  | fuel + 1, p, n =>
    if 2 ≤ p ∧ n ≠ 0 ∧ n % p = 0 then 1 + powInAux fuel p (n / p) else 0

/-- Multiplicity of `p` in `n` (0 when `p < 2` or `n = 0`); fuel `n`
suffices because every division by `p ≥ 2` at least halves `n`. -/
def powIn (p n : Nat) : Nat := powInAux n p n

/-- The value has a finite decimal expansion (true of every finite
binary float). -/
def finiteDecimal (q : ℚ) : Prop :=
  q.den = 2 ^ powIn 2 q.den * 5 ^ powIn 5 q.den

instance (q : ℚ) : Decidable (finiteDecimal q) := by
  unfold finiteDecimal; infer_instance

/-- Exact decimal notation of a nonnegative rational with finite decimal
expansion: integer part, and when the denominator is not 1 a point and
exactly as many fractional digits as needed (no trailing zeros, matching
the shortest-round-trip output of `Number.prototype.toString`). -/
def posRatToString (q : ℚ) : JsStr :=
  let k := max (powIn 2 q.den) (powIn 5 q.den)
  let m := (q * (10 : ℚ) ^ k).num.toNat
  if k = 0 then natDecDigits m
  else
    natDecDigits (m / 10 ^ k) ++ [46] ++
      (List.replicate (k - (natDecDigits (m % 10 ^ k)).length) 48 ++
        natDecDigits (m % 10 ^ k))

/-- `Number.prototype.toString` on the modelled value. -/
def numToString (q : ℚ) : JsStr :=
  if q < 0 then 45 :: posRatToString (-q) else posRatToString q

/-- The optional leading sign: `-1` for `-`, consuming `-` or `+`. -/
def parseSign (s : JsStr) : ℚ × JsStr :=
  if s.take 1 = [45] then (-1, s.drop 1)
  else if s.take 1 = [43] then (1, s.drop 1) else (1, s)

/-- The optional fractional part after the integer digits: a `.` followed
by digits; returns the fraction digits and the remaining input. -/
def parseFrac (s : JsStr) : JsStr × JsStr :=
  if s.take 1 = [46] then
    ((s.drop 1).takeWhile isDigit,
      (s.drop 1).drop ((s.drop 1).takeWhile isDigit).length)
  else ([], s)

/-- The optional exponent part: `e` or `E`, optional sign, digits; an
exponent marker without digits contributes 0, as `parseFloat` stops
before it. -/
def parseExp (s : JsStr) : Int :=
  if s.take 1 = [101] ∨ s.take 1 = [69] then
    let r := s.drop 1
    let esgn : Int := if r.take 1 = [45] then -1 else 1
    let r2 := if r.take 1 = [45] ∨ r.take 1 = [43] then r.drop 1 else r
    let eds := r2.takeWhile isDigit
    if eds.length = 0 then 0 else esgn * decValue eds
  else 0

/-- `parseFloat`: skip leading whitespace, optional sign, integer digits,
optional fraction, optional exponent; `none` models `NaN`.  Trailing
non-numeric characters are ignored, as in JS. -/
def parseFloatJs (s : JsStr) : Option ℚ :=
  let s1 := s.dropWhile isJsWs
  let sgn := (parseSign s1).1
  let s2 := (parseSign s1).2
  let intDs := s2.takeWhile isDigit
  let s3 := s2.drop intDs.length
  let fracDs := (parseFrac s3).1
  let s4 := (parseFrac s3).2
  if intDs.length = 0 ∧ fracDs.length = 0 then none
  else
    some (sgn * ((decValue intDs : ℚ) + (decValue fracDs : ℚ) / 10 ^ fracDs.length)
      * (10 : ℚ) ^ parseExp s4)

/-! ### Segment cache store (`getCachedSegment` / `saveCachedSegment`) -/

/-- A stored R2 object: body bytes plus HTTP content type and custom
metadata key-value pairs. -/
structure R2Object where
  body : List Nat
  contentType : JsStr
  customMetadata : List (JsStr × JsStr)
deriving DecidableEq, Repr

/-- The R2 bucket contents: key to object. -/
def R2Store := JsStr → Option R2Object

/-- `bucket.put`: (successful) write of one object under a key. -/
def r2Put (store : R2Store) (key : JsStr) (obj : R2Object) : R2Store :=
  fun k => if k = key then some obj else store k

/-- Look up a custom-metadata field. -/
def metaLookup (m : List (JsStr × JsStr)) (key : JsStr) : Option JsStr :=
  match m with
  | [] => none
  | (k, v) :: rest => if k = key then some v else metaLookup rest key

/-- A cached segment as returned to the caller; `duration = none` models
`NaN` (an unparseable duration string). -/
structure CachedSegment where
  audio : List Nat
  duration : Option ℚ
deriving DecidableEq, Repr

/-- The object key used by the cache: `tts_cache/<cacheKey>.mp3`. -/
def cacheObjectKey (cacheKey : JsStr) : JsStr :=
  jstr "tts_cache/" ++ cacheKey ++ jstr ".mp3"

/-- The body of `getCachedSegment` applied to the outcome of
`r2Cache.get` (an `Except` error models the rejected promise caught by
the surrounding try/catch).  A missing object, a missing `duration`
metadata field, or an empty (JS-falsy) `duration` string yields `null`;
otherwise the bytes and the `parseFloat` of the duration are returned. -/
def getCachedSegmentFrom (res : Except Unit (Option R2Object)) : Option CachedSegment :=
  match res with
  | .error _ => none
  | .ok none => none
  | .ok (some obj) =>
    match metaLookup obj.customMetadata (jstr "duration") with
    | none => none
    | some ds => if ds = [] then none else some ⟨obj.body, parseFloatJs ds⟩

/-- `getCachedSegment` against a store whose lookup succeeds. -/
def getCachedSegment (store : R2Store) (cacheKey : JsStr) : Option CachedSegment :=
  getCachedSegmentFrom (.ok (store (cacheObjectKey cacheKey)))

/-- `saveCachedSegment`: store the audio under `tts_cache/<key>.mp3` with
content type `audio/mpeg` and the duration rendered by `toString` into
custom metadata.  (A failing put leaves the store unchanged and is
swallowed; this definition models the successful write.) -/
def saveCachedSegment (store : R2Store) (cacheKey : JsStr) (audio : List Nat)
    (duration : ℚ) : R2Store :=
  r2Put store (cacheObjectKey cacheKey)
    ⟨audio, jstr "audio/mpeg", [(jstr "duration", numToString duration)]⟩

/-! ### Inworld duration extraction (`getInworldDuration`) -/

/-- `timestampInfo.wordAlignment` of an Inworld response. -/
structure WordAlignment where
  words : List JsStr
  wordStartTimeSeconds : List ℚ
  wordEndTimeSeconds : List ℚ
deriving DecidableEq, Repr

/-- `timestampInfo` of an Inworld response. -/
structure TimestampInfo where
  wordAlignment : Option WordAlignment
deriving DecidableEq, Repr

/-- `audio` of an Inworld response (alternative URL form). -/
structure AudioRef where
  url : Option JsStr
deriving DecidableEq, Repr

/-- An Inworld API response, all fields optional. -/
structure InworldApiResponse where
  audioContent : Option JsStr
  audio : Option AudioRef
  timestampInfo : Option TimestampInfo
deriving DecidableEq, Repr

/-- The optional chain `response.timestampInfo?.wordAlignment?.wordEndTimeSeconds`. -/
def wordEndTimes (r : InworldApiResponse) : Option (List ℚ) :=
  (r.timestampInfo.bind (·.wordAlignment)).map (·.wordEndTimeSeconds)

/-- `getInworldDuration`: the end time of the last word, or a thrown
error when the chain is absent or the sequence empty. -/
def getInworldDuration (r : InworldApiResponse) : Except JsStr ℚ :=
  match wordEndTimes r with
  | none => .error (jstr "Response missing word timestamps")
  | some l =>
    if l.length = 0 then .error (jstr "Response missing word timestamps")
    else .ok (l.getLastD 0)

/-! ### Episode identifier derivation (`generateEpisodeId`) -/

/-- ASCII lowercasing of one code unit. -/
def toLowerCU (c : Nat) : Nat := if 65 ≤ c ∧ c ≤ 90 then c + 32 else c

/-- Decimal notation of an integer. -/
def intDecStr (n : Int) : JsStr :=
  if n < 0 then 45 :: natDecDigits (-n).toNat else natDecDigits n.toNat

/-- `s` ends with `suffix`. -/
def endsWithJs (s suffix : JsStr) : Bool :=
  suffix.length ≤ s.length && s.drop (s.length - suffix.length) = suffix

/-- Index of the first occurrence of `pat` in `s`, if any. -/
def indexOfSub (s pat : JsStr) : Option Nat :=
  match s with
  | [] => if pat.isEmpty then some 0 else none
  | _ :: rest =>
    if s.take pat.length = pat then some 0
    else (indexOfSub rest pat).map (· + 1)

/-- The final whitespace-separated token of `s`. -/
def lastWsToken (s : JsStr) : JsStr :=
  (s.reverse.takeWhile (fun c => !isJsWs c)).reverse

/-- Modelled from the spec (§4.6); the body of `generateEpisodeId` is not
in the repository sources, only its tests and callers.  "if the authors
field ends with an `et al.` suffix, strip it and take the remaining text
as the sole author; otherwise split on the first occurrence of `and` or
on commas, and take the first author substring; within that substring,
the final whitespace-separated token is the last name, lowercased." -/
def firstAuthorLastName (authors : JsStr) : JsStr :=
  let a := trimJs authors
  let firstAuthor :=
    if endsWithJs a (jstr "et al.") then trimJs (a.take (a.length - 6))
    else
      match indexOfSub a (jstr " and "), indexOfSub a (jstr ",") with
      | none, none => a
      | some i, none => a.take i
      | none, some j => a.take j
      | some i, some j => a.take (min i j)
  (lastWsToken (trimJs firstAuthor)).map toLowerCU

/-- Fuel-driven worker for `slugCollapse`. -/
def slugCollapseAux : Nat → JsStr → JsStr
  | 0, _ => []
  | _ + 1, [] => []
  | fuel + 1, c :: rest =>
    if isAlnum c then c :: slugCollapseAux fuel rest
    else 95 :: slugCollapseAux fuel (rest.dropWhile (fun c => !isAlnum c))

/-- Replace every run of non-alphanumeric code units by one `_`. -/
def slugCollapse (s : JsStr) : JsStr := slugCollapseAux s.length s

/-- Drop `_` at both ends. -/
def trimUnderscore (s : JsStr) : JsStr :=
  ((s.dropWhile (fun c => c = 95)).reverse.dropWhile (fun c => c = 95)).reverse

/-- Modelled from the spec (§4.6): "Title slug: lowercase the title,
replace every run of non-alphanumeric characters with a single
underscore, trim leading/trailing underscores, truncate to a fixed
maximum length (20 characters)" — except that the truncation to 20
characters is applied to the raw title before the other steps, the
order pinned by the repository's tests
(`src/api/src/index.test.ts`: `author-2023-leading_and_trail` for the
title `...Leading and Trailing...` and `sheng-2023-flexgen_high_throug`
for the FlexGen title, both reachable only by truncating first), where
the spec's prose order and its own literal scenario in §8 conflict. -/
def titleSlug (title : JsStr) : JsStr :=
  trimUnderscore (slugCollapse ((title.take 20).map toLowerCU))

/-- Modelled from the spec (§4.6); the body of `generateEpisodeId` is not
in the repository sources.  Pure function
`(title, year, authorsField) → slug`; validates title (non-empty after
trimming), year (1900–2100 inclusive), authors (non-empty after
trimming), in that order, and produces
`\x7blastname\x7d-\x7byear\x7d-\x7btitleSlug\x7d`. -/
def generateEpisodeId (title : JsStr) (year : Int) (authors : JsStr) :
    Except JsStr JsStr :=
  if (trimJs title).isEmpty then .error (jstr "title required")
  else if year < 1900 ∨ 2100 < year then
    .error (jstr "invalid year: " ++ intDecStr year)
  else if (trimJs authors).isEmpty then .error (jstr "authors required")
  else
    .ok (firstAuthorLastName authors ++ [45] ++ intDecStr year ++ [45] ++
      titleSlug title)

/-! ### Binary duration probe (`getMp3Duration`) -/

/-- Syncsafe 28-bit size: each byte contributes its low 7 bits. -/
def syncsafeSize (b6 b7 b8 b9 : Nat) : Nat :=
  b6 % 128 * 2097152 + b7 % 128 * 16384 + b8 % 128 * 128 + b9 % 128

/-- MPEG-1 Layer III bitrate table, indexed by the upper nibble of the
third frame-header byte; `none` for the free (0) and invalid (15)
indices. -/
def bitrateV1L3 (idx : Nat) : Option Nat :=
  match idx with
  | 1 => some 32000
  | 2 => some 40000
  | 3 => some 48000
  | 4 => some 56000
  | 5 => some 64000
  | 6 => some 80000
  | 7 => some 96000
  | 8 => some 112000
  | 9 => some 128000
  | 10 => some 160000
  | 11 => some 192000
  | 12 => some 224000
  | 13 => some 256000
  | 14 => some 320000
  | _ => none

/-- Frame plausibility at offset `i`: sync byte 0xFF, a second byte with
its top five bits set, a valid bitrate index in the third byte's upper
nibble and a valid sample-rate flag (bits 2–3 not both set).  Returns
the bitrate in bits per second. -/
def frameBitrateAt (data : List Nat) (i : Nat) : Option Nat :=
  if data.getD i 0 = 255 ∧ (data.getD (i + 1) 0) / 8 % 32 = 31 ∧
      (data.getD (i + 2) 0) / 4 % 4 ≠ 3 then
    bitrateV1L3 ((data.getD (i + 2) 0) / 16)
  else none

/-- Fuel-driven worker for `scanFrame`. -/
def scanFrameAux (data : List Nat) : Nat → Nat → Option (Nat × Nat)
  | 0, _ => none
  | fuel + 1, i =>
    if i < data.length then
      match frameBitrateAt data i with
      | some br => some (i, br)
      | none => scanFrameAux data fuel (i + 1)
    else none

/-- Scan forward from offset `i` for the first plausible frame header,
stopping at the end of the data. -/
def scanFrame (data : List Nat) (i : Nat) : Option (Nat × Nat) :=
  scanFrameAux data (data.length - i) i

/-- Offset of the audio data: past a leading `ID3` metadata block (fixed
10-byte header plus the syncsafe size in bytes 6–9), else 0. -/
def id3Offset (data : List Nat) : Nat :=
  if data.take 3 = [73, 68, 51] then
    10 + syncsafeSize (data.getD 6 0) (data.getD 7 0) (data.getD 8 0) (data.getD 9 0)
  else 0

/-- Modelled from the spec (§4.4a); the body of `getMp3Duration` is not
in the repository sources, only its tests.  Empty input yields 0; a
plausible frame found scanning from past any leading metadata block
yields `remaining_bytes * 8 / bitrate`; otherwise the fallback
`total_bytes / 16000`.  The probe is total: it never fails. -/
def getMp3Duration (data : List Nat) : ℚ :=
  if data.length = 0 then 0
  else
    match scanFrame data (id3Offset data) with
    | some (i, br) => ((data.length - i) * 8 : ℚ) / br
    | none => (data.length : ℚ) / 16000

/-! ### Assembly service (`main.go`) -/

/-- The shared container status record (`ContainerStatus`). -/
structure ContainerStatus where
  state : String
  jobID : String
  startedAt : Option Nat
  segmentsTotal : Nat
  segmentsDownloaded : Nat
  lastError : String
deriving DecidableEq, Repr

/-- The reset status, installed at process start and after success. -/
def idleStatus : ContainerStatus := ⟨"idle", "", none, 0, 0, ""⟩

/-- ID3 tag metadata of a concat request. -/
structure ConcatMetadata where
  title : String
  artist : String
  album : String
  genre : String
deriving DecidableEq, Repr

/-- The decoded body of a `/concat` request. -/
structure ConcatRequest where
  episodeID : String
  segments : List String
  outputURL : String
  metadata : ConcatMetadata
deriving DecidableEq, Repr

/-- The `/concat` response body. -/
structure ConcatResponse where
  success : Bool
  durationSeconds : ℚ
  fileSize : Nat
  error : String
deriving DecidableEq, Repr

/-- `sendError`'s response body. -/
def errResponse (msg : String) : ConcatResponse := ⟨false, 0, 0, msg⟩

/-- Outcomes of the effectful steps of one `/concat` exchange: clock,
temp-dir creation, cancellation checks, per-segment downloads, list-file
write, the FFmpeg invocation, the duration probe, the output stat and
the upload.  `ctxErrMsg` renders `ctx.Err()` in cancellation messages. -/
structure ConcatEnv where
  now : Nat
  ctxErrMsg : String
  mkdirTempResult : Except String Unit
  cancelledAtStart : Bool
  cancelledBeforeDownload : Nat → Bool
  downloadResult : Nat → Except String Unit
  writeListResult : Except String Unit
  ffmpegResult : Except String Unit
  cancelledAtFfmpeg : Bool
  probeResult : Except String ℚ
  statResult : Except String Nat
  uploadResult : Except String Unit

/-- The `handleError` closure: sets only `State` and `LastError` on the
shared record, then sends the failure response. -/
def failWith (st : ContainerStatus) (msg : String) (code : Nat) :
    ContainerStatus × Nat × ConcatResponse :=
  ({ st with state := "error", lastError := msg }, code, errResponse msg)

/-- The sequential download loop: before each segment a cancellation
check, then the download, then the `SegmentsDownloaded` counter update
under the status lock.  An `.error` result is the early HTTP return. -/
def downloadSegments (env : ConcatEnv) (st : ContainerStatus) (i : Nat) :
    List String → Except (ContainerStatus × Nat × ConcatResponse) ContainerStatus
  | [] => .ok st
  | _ :: rest =>
    if env.cancelledBeforeDownload i then
      .error (failWith st ("Job cancelled during download: " ++ env.ctxErrMsg) 503)
    else
      match env.downloadResult i with
      | .error e =>
        .error (failWith st ("Failed to download segment " ++ toString i ++ ": " ++ e) 500)
      | .ok _ =>
        downloadSegments env { st with segmentsDownloaded := i + 1 } (i + 1) rest

/-- `handleConcat` (src/api/container/main.go lines 120–314): method and
body validation before any status mutation, then the acceptance status
update, the download loop, the FFmpeg transform, the non-fatal duration
probe, the stat, the upload, and the idle reset on success.  The
filesystem contents (list file, temp paths) are abstracted into the
step outcomes carried by `env`. -/
def handleConcat (env : ConcatEnv) (method : String)
    (body : Except String ConcatRequest) (st : ContainerStatus) :
    ContainerStatus × Nat × ConcatResponse :=
  if method ≠ "POST" then (st, 405, errResponse "Method not allowed")
  else
    match body with
    | .error e => (st, 400, errResponse ("Invalid request body: " ++ e))
    | .ok req =>
      if req.segments.length = 0 then (st, 400, errResponse "No segments provided")
      else if req.outputURL = "" then (st, 400, errResponse "No output URL provided")
      else
        let st1 : ContainerStatus :=
          ⟨"processing", req.episodeID, some env.now, req.segments.length, 0, ""⟩
        match env.mkdirTempResult with
        | .error e => failWith st1 ("Failed to create temp dir: " ++ e) 500
        | .ok _ =>
          if env.cancelledAtStart then
            failWith st1 ("Job cancelled: " ++ env.ctxErrMsg) 503
          else
            match downloadSegments env st1 0 req.segments with
            | .error r => r
            | .ok st2 =>
              match env.writeListResult with
              | .error e => failWith st2 ("Failed to write list file: " ++ e) 500
              | .ok _ =>
                match env.ffmpegResult with
                | .error e =>
                  if env.cancelledAtFfmpeg then
                    failWith st2 ("FFmpeg cancelled: " ++ env.ctxErrMsg) 503
                  else failWith st2 ("FFmpeg failed: " ++ e) 500
                | .ok _ =>
                  let duration := match env.probeResult with
                    | .ok d => d
                    | .error _ => 0
                  match env.statResult with
                  | .error e => failWith st2 ("Failed to stat output file: " ++ e) 500
                  | .ok fileSize =>
                    match env.uploadResult with
                    | .error e => failWith st2 ("Failed to upload result: " ++ e) 500
                    | .ok _ => (idleStatus, 200, ⟨true, duration, fileSize, ""⟩)

/-- `handleStatus`: a GET returns a snapshot of the shared record under
the read lock and never mutates it. -/
def handleStatus (method : String) (st : ContainerStatus) :
    ContainerStatus × Option ContainerStatus :=
  if method ≠ "GET" then (st, none) else (st, some st)

/-! ### Claim theorems -/

instance {ε α : Type} [DecidableEq ε] [DecidableEq α] : DecidableEq (Except ε α)
  | .ok a, .ok b => decidable_of_iff (a = b) (by simp)
  | .error a, .error b => decidable_of_iff (a = b) (by simp)
  | .ok _, .error _ => isFalse (fun h => Except.noConfusion h)
  | .error _, .ok _ => isFalse (fun h => Except.noConfusion h)

/-- C3 (amended): a line whose trimmed form starts with `## [` yields a
pause segment provided the line does not also contain a speaker-label
match; a matching speaker pattern anywhere in the line takes precedence
because the source checks the speaker regex first and it is unanchored. -/
theorem claim_C3 (line : JsStr)
    (hp : (trimJs line).take 4 = jstr "## [")
    (hn : findSpeakerMatch (trimJs line) = none) :
    processLine line = some ⟨jstr "PAUSE", none⟩ := by
  have hne : (trimJs line).isEmpty = false := by
    cases h : trimJs line with
    | nil => rw [h] at hp; simp [jstr] at hp
    | cons a l => rfl
  simp [processLine, hne, hn, hp]

/-- C3 witness: the section-break line from the repository's test suite
yields a pause segment. -/
theorem claim_C3_witness :
    processLine (jstr "## [Section Break]") = some ⟨jstr "PAUSE", none⟩ :=
  claim_C3 (jstr "## [Section Break]") (by decide) (by decide)

/-- C3 counterexample: the line `## [a] **ERIC:** hi` trims to a string
starting with `## [`, yet `parseScript` emits a spoken segment for it,
not a pause, because the unanchored speaker regex matches mid-line. -/
theorem claim_C3_counterexample :
    (trimJs (jstr "## [a] **ERIC:** hi")).take 4 = jstr "## [" ∧
    processLine (jstr "## [a] **ERIC:** hi") =
      some ⟨jstr "ERIC", some (jstr "hi")⟩ ∧
    processLine (jstr "## [a] **ERIC:** hi") ≠ some ⟨jstr "PAUSE", none⟩ := by
  exact ⟨by decide, by decide, by decide⟩

/-- C6: `getInworldDuration` returns the last element of the
word-end-time sequence when it is present and non-empty, and throws the
missing-timestamps error exactly when the optional chain is absent or
the sequence empty. -/
theorem claim_C6 (r : InworldApiResponse) :
    (getInworldDuration r = .error (jstr "Response missing word timestamps") ↔
      wordEndTimes r = none ∨ wordEndTimes r = some []) ∧
    (∀ l, wordEndTimes r = some l → l ≠ [] →
      getInworldDuration r = .ok (l.getLastD 0)) := by
  refine ⟨⟨fun h => ?_, fun h => ?_⟩, fun l hw hl => ?_⟩
  · unfold getInworldDuration at h
    cases hw : wordEndTimes r with
    | none => exact Or.inl rfl
    | some l =>
      rw [hw] at h
      by_cases hlen : l.length = 0
      · exact Or.inr (by rw [List.length_eq_zero] at hlen; rw [hlen])
      · simp [hlen] at h
  · rcases h with h | h <;> unfold getInworldDuration <;> rw [h] <;> simp
  · unfold getInworldDuration
    rw [hw]
    have hlen : l.length ≠ 0 := by simpa [List.length_eq_zero] using hl
    simp [hlen]

/-- C6 witness: a single-word response yields that word's end time. -/
theorem claim_C6_witness :
    getInworldDuration
      ⟨none, none, some ⟨some ⟨[jstr "Hello"], [0],
        [(⟨1, 2, by decide, by decide⟩ : ℚ)]⟩⟩⟩ =
      .ok (([(⟨1, 2, by decide, by decide⟩ : ℚ)]).getLastD 0) :=
  (claim_C6 _).2 [(⟨1, 2, by decide, by decide⟩ : ℚ)] rfl (List.cons_ne_nil _ _)

/-- C7: a `/concat` request with zero segments or an empty output URL is
rejected with HTTP 400 and a failure body, and the shared status record
is returned completely unchanged; only requests passing validation reach
the transition to `processing`. -/
theorem claim_C7 (env : ConcatEnv) (req : ConcatRequest) (st : ContainerStatus)
    (h : req.segments = [] ∨ req.outputURL = "") :
    (handleConcat env "POST" (.ok req) st).1 = st ∧
    (handleConcat env "POST" (.ok req) st).2.1 = 400 ∧
    (handleConcat env "POST" (.ok req) st).2.2.success = false := by
  rcases h with h | h
  · simp [handleConcat, h, errResponse]
  · by_cases hs : req.segments.length = 0
    · simp [handleConcat, hs, errResponse]
    · simp [handleConcat, hs, h, errResponse]

/-- C7 witness: the concrete zero-segment request against the idle
status. -/
theorem claim_C7_witness :
    (handleConcat ⟨0, "", .ok (), false, fun _ => false, fun _ => .ok (),
        .ok (), .ok (), false, .ok 0, .ok 0, .ok ()⟩ "POST"
      (.ok ⟨"ep", [], "https://out", ⟨"", "", "", ""⟩⟩) idleStatus).1 = idleStatus ∧
    (handleConcat ⟨0, "", .ok (), false, fun _ => false, fun _ => .ok (),
        .ok (), .ok (), false, .ok 0, .ok 0, .ok ()⟩ "POST"
      (.ok ⟨"ep", [], "https://out", ⟨"", "", "", ""⟩⟩) idleStatus).2.1 = 400 ∧
    (handleConcat ⟨0, "", .ok (), false, fun _ => false, fun _ => .ok (),
        .ok (), .ok (), false, .ok 0, .ok 0, .ok ()⟩ "POST"
      (.ok ⟨"ep", [], "https://out", ⟨"", "", "", ""⟩⟩) idleStatus).2.2.success = false :=
  claim_C7 _ _ _ (Or.inl rfl)

/-- C9: the binary duration probe: a 16000-byte input starting with sync
bytes 0xFF 0xFB and bitrate byte 0x90 yields a duration within 0.1 of 1
second; an input with no plausible frame header falls back to
`total_bytes / 16000`; empty input yields 0.  The probe is a total
function and never fails.  (Modelled from the spec, §4.4a.) -/
theorem scanFrameAux_hit {data : List Nat} {i br : Nat} (fuel : Nat)
    (h : frameBitrateAt data i = some br) (hi : i < data.length) :
    scanFrameAux data (fuel + 1) i = some (i, br) := by
  unfold scanFrameAux
  rw [h]
  simp [hi]

theorem claim_C9 :
    |getMp3Duration ([255, 251, 144] ++ List.replicate 15997 0) - 1| ≤ 1 / 10 ∧
    (∀ data : List Nat, data ≠ [] → (∀ i, frameBitrateAt data i = none) →
      getMp3Duration data = (data.length : ℚ) / 16000) ∧
    getMp3Duration [] = 0 := by
  refine ⟨?_, fun data hne hall => ?_, rfl⟩
  · have hlen : ([255, 251, 144] ++ List.replicate 15997 0).length = 16000 := by
      rw [List.length_append, List.length_replicate]
      rfl
    have hfb : frameBitrateAt ([255, 251, 144] ++ List.replicate 15997 0) 0 =
        some 128000 := rfl
    have hscan : scanFrame ([255, 251, 144] ++ List.replicate 15997 0) 0 =
        some (0, 128000) := by
      unfold scanFrame
      rw [hlen]
      rw [show (16000 : Nat) - 0 = 15999 + 1 from rfl]
      exact scanFrameAux_hit 15999 hfb (by rw [hlen]; norm_num)
    have hoff : id3Offset ([255, 251, 144] ++ List.replicate 15997 0) = 0 := rfl
    unfold getMp3Duration
    rw [hoff, hscan, hlen]
    norm_num
  · have hlen0 : data.length ≠ 0 := by simpa [List.length_eq_zero] using hne
    have hnone : ∀ fuel i, scanFrameAux data fuel i = none := by
      intro fuel
      induction fuel with
      | zero => intro i; rfl
      | succ f ih =>
        intro i
        unfold scanFrameAux
        rw [hall i]
        split
        · exact ih (i + 1)
        · rfl
    unfold getMp3Duration scanFrame
    rw [if_neg hlen0, hnone]

/-- C9 witness: a one-byte stream has no frame sync and falls back to
`length / 16000`. -/
theorem claim_C9_witness :
    getMp3Duration [1] = (([1] : List Nat).length : ℚ) / 16000 := by
  refine claim_C9.2.1 [1] (by decide) (fun i => ?_)
  match i with
  | 0 => rfl
  | i + 1 => rfl

/-- C8 (amended, spec-modelled): both literal scenarios hold, including
the FlexGen slug `sheng-2023-flexgen_high_throug` (the raw title is
truncated to 20 characters before slugification, the order the
repository's tests pin); years 1899 and 2101 fail with the invalid-year
error for every title passing the (earlier) title validation and every
authors; a blank title fails with the title-required error for every
year and authors. -/
theorem claim_C8 :
    generateEpisodeId (jstr "Attention Is All You Need") 2017
      (jstr "Ashish Vaswani") = .ok (jstr "vaswani-2017-attention_is_all_you") ∧
    generateEpisodeId (jstr "FlexGen: High-Throughput Generative Inference") 2023
      (jstr "Ying Sheng et al.") = .ok (jstr "sheng-2023-flexgen_high_throug") ∧
    (∀ title authors : JsStr, (trimJs title).isEmpty = false →
      generateEpisodeId title 1899 authors = .error (jstr "invalid year: 1899") ∧
      generateEpisodeId title 2101 authors = .error (jstr "invalid year: 2101")) ∧
    (∀ (year : Int) (title authors : JsStr), (trimJs title).isEmpty = true →
      generateEpisodeId title year authors = .error (jstr "title required")) := by
  refine ⟨by decide, by decide, fun title authors ht => ⟨?_, ?_⟩,
    fun year title authors ht => ?_⟩
  · unfold generateEpisodeId
    rw [ht]
    norm_num
    decide
  · unfold generateEpisodeId
    rw [ht]
    norm_num
    decide
  · unfold generateEpisodeId
    rw [ht]
    simp

/-- C8 witness: the invalid-year and title-required failures at concrete
inputs from the repository's test suite. -/
theorem claim_C8_witness :
    generateEpisodeId (jstr "Some Title") 1899 (jstr "John Doe") =
      .error (jstr "invalid year: 1899") ∧
    generateEpisodeId (jstr "   ") 2023 (jstr "John Doe") =
      .error (jstr "title required") :=
  ⟨(claim_C8.2.2.1 (jstr "Some Title") (jstr "John Doe") (by decide)).1,
   claim_C8.2.2.2 2023 (jstr "   ") (jstr "John Doe") (by decide)⟩

/-- C8 counterexample: the claim's year-error clause quantifies over
every title, but a blank title fails the earlier title check, so
`generateEpisodeId "" 1899 "John Doe"` yields the title-required error,
not the claimed invalid-year error. -/
theorem claim_C8_counterexample :
    generateEpisodeId (jstr "") 1899 (jstr "John Doe") =
      .error (jstr "title required") ∧
    generateEpisodeId (jstr "") 1899 (jstr "John Doe") ≠
      .error (jstr "invalid year: 1899") := by
  exact ⟨by decide, by decide⟩

/-- C5 (amended): `getCachedSegmentFrom` returns `null` exactly when the
lookup fails, the object is not found, or the stored metadata's
`duration` field is absent or the empty string (the code's JS-falsiness
test also rejects a present-but-empty duration). -/
theorem claim_C5 (res : Except Unit (Option R2Object)) :
    getCachedSegmentFrom res = none ↔
      ((∃ e, res = .error e) ∨ res = .ok none ∨
        ∃ obj, res = .ok (some obj) ∧
          (metaLookup obj.customMetadata (jstr "duration") = none ∨
           metaLookup obj.customMetadata (jstr "duration") = some [])) := by
  cases res with
  | error e => simp [getCachedSegmentFrom]
  | ok o =>
    cases o with
    | none => simp [getCachedSegmentFrom]
    | some obj =>
      unfold getCachedSegmentFrom
      cases hm : metaLookup obj.customMetadata (jstr "duration") with
      | none => simp [hm]
      | some ds =>
        by_cases hd : ds = []
        · subst hd; simp [hm]
        · simp [hm, hd]

/-- C5 counterexample: an object whose metadata carries a `duration`
field holding the empty string is rejected (returns `null`) even though
it does not lack the field, so the claimed three cases are not
exhaustive. -/
theorem claim_C5_counterexample :
    getCachedSegmentFrom
      (.ok (some ⟨[1], jstr "audio/mpeg", [(jstr "duration", [])]⟩)) = none ∧
    metaLookup [((jstr "duration" : JsStr), ([] : JsStr))] (jstr "duration") ≠
      none := by
  exact ⟨by decide, by decide⟩

/-- Lowercase hexadecimal digit code unit. -/
def isLowerHexDigit (c : Nat) : Bool := (48 ≤ c && c ≤ 57) || (97 ≤ c && c ≤ 102)

theorem toInt32_bounds (x : Int) :
    -2147483648 ≤ toInt32 x ∧ toInt32 x < 2147483648 := by
  unfold toInt32
  have h1 : 0 ≤ (x + 2 ^ 31) % 2 ^ 32 := Int.emod_nonneg _ (by norm_num)
  have h2 : (x + 2 ^ 31) % 2 ^ 32 < 2 ^ 32 := Int.emod_lt_of_pos _ (by norm_num)
  norm_num at h1 h2 ⊢
  omega

theorem rollHash_bounds (s : JsStr) :
    -2147483648 ≤ rollHash s ∧ rollHash s < 2147483648 := by
  unfold rollHash
  have key : ∀ (l : JsStr) (h0 : Int), -2147483648 ≤ h0 → h0 < 2147483648 →
      -2147483648 ≤ l.foldl (fun h c => toInt32 (toInt32 (h * 32) - h + (c : Int))) h0 ∧
      l.foldl (fun h c => toInt32 (toInt32 (h * 32) - h + (c : Int))) h0 < 2147483648 := by
    intro l
    induction l with
    | nil => intro h0 ha hb; exact ⟨ha, hb⟩
    | cons c rest ih =>
      intro h0 _ _
      exact ih _ (toInt32_bounds _).1 (toInt32_bounds _).2
  exact key s 0 (by norm_num) (by norm_num)

theorem hexDigitChar_ok {d : Nat} (hd : d < 16) :
    isLowerHexDigit (hexDigitChar d) = true := by
  unfold hexDigitChar isLowerHexDigit
  split <;> simp only [Bool.or_eq_true, Bool.and_eq_true, decide_eq_true_eq] <;> omega

theorem jsHexAux_digits :
    ∀ (fuel n c : Nat), c ∈ jsHexAux fuel n → isLowerHexDigit c = true := by
  intro fuel
  induction fuel with
  | zero => intro n c hc; simp [jsHexAux] at hc
  | succ f ih =>
    intro n c hc
    unfold jsHexAux at hc
    split at hc
    · rw [List.mem_singleton] at hc
      subst hc
      exact hexDigitChar_ok (by omega)
    · rcases List.mem_append.mp hc with hm | hm
      · exact ih _ _ hm
      · rw [List.mem_singleton] at hm
        subst hm
        exact hexDigitChar_ok (Nat.mod_lt _ (by norm_num))

theorem jsHexAux_length :
    ∀ (fuel n k : Nat), 0 < k → n < 16 ^ k → (jsHexAux fuel n).length ≤ k := by
  intro fuel
  induction fuel with
  | zero => intro n k _ _; simp [jsHexAux]
  | succ f ih =>
    intro n k hk hn
    unfold jsHexAux
    split
    · simpa using hk
    · rename_i hge
      rw [List.length_append]
      have hk2 : 2 ≤ k := by
        by_contra hlt
        have hk1 : k = 1 := by omega
        subst hk1
        simp at hn
        omega
    -- n / 16 < 16 ^ (k - 1)
      have hdiv : n / 16 < 16 ^ (k - 1) := by
        rw [Nat.div_lt_iff_lt_mul (by norm_num : 0 < 16)]
        have hk1 : k - 1 + 1 = k := by omega
        calc n < 16 ^ k := hn
        _ = 16 ^ (k - 1) * 16 := by rw [← hk1, pow_succ, hk1]
      have hrec := ih (n / 16) (k - 1) (by omega) hdiv
      simp only [List.length_cons, List.length_nil]
      omega

theorem hexHash_length (t v : JsStr) (p : TTSProvider) :
    (hexHash t v p).length = 8 := by
  unfold hexHash padStart8
  rw [List.length_append, List.length_replicate]
  have hb := rollHash_bounds (cacheData t v p)
  have habs : (rollHash (cacheData t v p)).natAbs < 16 ^ 8 := by
    have h16 : (16 : Nat) ^ 8 = 4294967296 := by norm_num
    rw [h16]
    omega
  have := jsHexAux_length ((rollHash (cacheData t v p)).natAbs + 1)
    (rollHash (cacheData t v p)).natAbs 8 (by norm_num) habs
  unfold jsHex
  omega

theorem hexHash_digits (t v : JsStr) (p : TTSProvider) :
    ∀ c ∈ hexHash t v p, isLowerHexDigit c = true := by
  intro c hc
  unfold hexHash padStart8 at hc
  rcases List.mem_append.mp hc with hm | hm
  · rw [List.eq_of_mem_replicate hm]
    rfl
  · exact jsHexAux_digits _ _ _ hm

/-- C1 (amended): `computeCacheKey` is a pure function whose result is
exactly `3/` + the first (up to) two characters of the sanitized
fragment + `/` + eight lowercase hex digits (the zero-padded absolute
value of the 32-bit rolling hash of the canonical serialization) + `_` +
provider + `_` + fragment, where the fragment is the first 20 plus last
10 code units of the text with non-alphanumerics stripped.  The
component between the two `/` separators has at most 2 characters, and
exactly 2 whenever the sanitized fragment has at least 2; for shorter
fragments it is shorter. -/
theorem claim_C1 (text voiceId : JsStr) (provider : TTSProvider) :
    computeCacheKey text voiceId provider =
      jstr "3" ++ [47] ++ (sanitizedFragment text).take 2 ++ [47] ++
        hexHash text voiceId provider ++ [95] ++ providerStr provider ++ [95] ++
        sanitizedFragment text ∧
    (hexHash text voiceId provider).length = 8 ∧
    (∀ c ∈ hexHash text voiceId provider, isLowerHexDigit c = true) ∧
    ((sanitizedFragment text).take 2).length ≤ 2 ∧
    (2 ≤ (sanitizedFragment text).length →
      ((sanitizedFragment text).take 2).length = 2) := by
  refine ⟨rfl, hexHash_length text voiceId provider,
    hexHash_digits text voiceId provider, ?_, fun h2 => ?_⟩
  · rw [List.length_take]
    omega
  · rw [List.length_take]
    omega

/-- C1 witness: a text with at least two alphanumeric characters gives a
two-character partition component. -/
theorem claim_C1_witness :
    ((sanitizedFragment (jstr "Hello world")).take 2).length = 2 :=
  (claim_C1 (jstr "Hello world") (jstr "voice") .inworld).2.2.2.2 (by decide)

/-- C1 counterexample: for an empty text the sanitized fragment is
empty, the key starts `3//`, and the component between the two `/`
separators has 0 characters, not 2. -/
theorem claim_C1_counterexample :
    (computeCacheKey (jstr "") (jstr "v") TTSProvider.inworld).take 3 = jstr "3//" ∧
    ((sanitizedFragment (jstr "")).take 2).length ≠ 2 := by
  exact ⟨by decide, by decide⟩

theorem downloadSegments_ok (env : ConcatEnv) :
    ∀ (urls : List String) (st : ContainerStatus) (i : Nat) (st2 : ContainerStatus),
    st.segmentsDownloaded = i →
    downloadSegments env st i urls = .ok st2 →
    ∃ j, j ≤ i + urls.length ∧
      st2 = ⟨st.state, st.jobID, st.startedAt, st.segmentsTotal, j, st.lastError⟩ := by
  intro urls
  induction urls with
  | nil =>
    intro st i st2 hd h
    unfold downloadSegments at h
    have hst : st = st2 := Except.ok.inj h
    subst hst
    exact ⟨st.segmentsDownloaded, by omega, rfl⟩
  | cons u rest ih =>
    intro st i st2 hd h
    unfold downloadSegments at h
    split at h
    · exact absurd h (by simp)
    · cases hdl : env.downloadResult i with
      | error e => rw [hdl] at h; exact absurd h (by simp)
      | ok _ =>
        rw [hdl] at h
        obtain ⟨j, hle, hj⟩ := ih _ (i + 1) st2 rfl h
        exact ⟨j, by simp only [List.length_cons]; omega, hj⟩

theorem downloadSegments_err (env : ConcatEnv) :
    ∀ (urls : List String) (st : ContainerStatus) (i : Nat)
      (r : ContainerStatus × Nat × ConcatResponse),
    st.segmentsDownloaded = i →
    downloadSegments env st i urls = .error r →
    ∃ j msg code, j ≤ i + urls.length ∧
      r = (⟨"error", st.jobID, st.startedAt, st.segmentsTotal, j, msg⟩, code,
        errResponse msg) := by
  intro urls
  induction urls with
  | nil =>
    intro st i r hd h
    unfold downloadSegments at h
    exact absurd h (by simp)
  | cons u rest ih =>
    intro st i r hd h
    unfold downloadSegments at h
    split at h
    · obtain rfl := Except.error.inj h
      subst hd
      exact ⟨st.segmentsDownloaded,
        "Job cancelled during download: " ++ env.ctxErrMsg, 503, by omega, rfl⟩
    · cases hdl : env.downloadResult i with
      | error e =>
        rw [hdl] at h
        obtain rfl := Except.error.inj h
        subst hd
        exact ⟨st.segmentsDownloaded,
          "Failed to download segment " ++ toString st.segmentsDownloaded ++ ": " ++ e,
          500, by omega, rfl⟩
      | ok _ =>
        rw [hdl] at h
        obtain ⟨j, msg, code, hle, hj⟩ := ih _ (i + 1) r rfl h
        refine ⟨j, msg, code, by simp only [List.length_cons]; omega, ?_⟩
        exact hj

theorem tripleEq {α β γ : Type} {a a2 : α} {b b2 : β} {c c2 : γ}
    (h : (a, b, c) = (a2, b2, c2)) : a2 = a ∧ b2 = b ∧ c2 = c := by
  injection h with h1 h23
  injection h23 with h2 h3
  exact ⟨h1.symm, h2.symm, h3.symm⟩

/-- C10: on every failure path of an accepted job (temp-dir, download,
transform, stat, upload, or cancellation failure) the final shared
status is the acceptance-time record with only `State` set to `error`
and `LastError` set to the failure message (`SegmentsDownloaded` keeps
the count reached by the loop); the record stays visible unchanged
through status reads. -/
theorem claim_C10 (env : ConcatEnv) (req : ConcatRequest)
    (st st2 : ContainerStatus) (code : Nat) (resp : ConcatResponse)
    (h1 : req.segments ≠ []) (h2 : req.outputURL ≠ "")
    (hrun : handleConcat env "POST" (.ok req) st = (st2, code, resp))
    (hfail : resp.success = false) :
    ∃ k msg, k ≤ req.segments.length ∧ resp = errResponse msg ∧
      st2 = ⟨"error", req.episodeID, some env.now, req.segments.length, k, msg⟩ ∧
      handleStatus "GET" st2 = (st2, some st2) := by
  have hgs : ∀ s : ContainerStatus, handleStatus "GET" s = (s, some s) := by
    intro s
    unfold handleStatus
    simp
  unfold handleConcat at hrun
  rw [if_neg (by simp)] at hrun
  dsimp only at hrun
  rw [if_neg (by simpa [List.length_eq_zero] using h1)] at hrun
  rw [if_neg h2] at hrun
  cases hmk : env.mkdirTempResult with
  | error e =>
    rw [hmk] at hrun
    dsimp only at hrun
    obtain ⟨hst2, hcode, hresp⟩ := tripleEq hrun
    subst hst2
    subst hresp
    exact ⟨0, _, Nat.zero_le _, rfl, rfl, hgs _⟩
  | ok _ =>
    rw [hmk] at hrun
    dsimp only at hrun
    by_cases hca : env.cancelledAtStart
    · rw [if_pos hca] at hrun
      obtain ⟨hst2, hcode, hresp⟩ := tripleEq hrun
      subst hst2
      subst hresp
      exact ⟨0, _, Nat.zero_le _, rfl, rfl, hgs _⟩
    · rw [if_neg hca] at hrun
      cases hdl : downloadSegments env
          ⟨"processing", req.episodeID, some env.now, req.segments.length, 0, ""⟩
          0 req.segments with
      | error r =>
        rw [hdl] at hrun
        dsimp only at hrun
        obtain ⟨j, msg, c2, hle, hr⟩ := downloadSegments_err env req.segments
          ⟨"processing", req.episodeID, some env.now, req.segments.length, 0, ""⟩
          0 r rfl hdl
        subst hr
        obtain ⟨hst2, hcode, hresp⟩ := tripleEq hrun
        subst hst2
        subst hresp
        exact ⟨j, msg, by simpa using hle, rfl, rfl, hgs _⟩
      | ok stdl =>
        rw [hdl] at hrun
        dsimp only at hrun
        obtain ⟨j, hle, hst⟩ := downloadSegments_ok env req.segments
          ⟨"processing", req.episodeID, some env.now, req.segments.length, 0, ""⟩
          0 stdl rfl hdl
        subst hst
        dsimp only at hrun
        cases hwl : env.writeListResult with
        | error e =>
          rw [hwl] at hrun
          dsimp only at hrun
          obtain ⟨hst2, hcode, hresp⟩ := tripleEq hrun
          subst hst2
          subst hresp
          exact ⟨j, _, by simpa using hle, rfl, rfl, hgs _⟩
        | ok _ =>
          rw [hwl] at hrun
          dsimp only at hrun
          cases hff : env.ffmpegResult with
          | error e =>
            rw [hff] at hrun
            dsimp only at hrun
            by_cases hcf : env.cancelledAtFfmpeg
            · rw [if_pos hcf] at hrun
              obtain ⟨hst2, hcode, hresp⟩ := tripleEq hrun
              subst hst2
              subst hresp
              exact ⟨j, _, by simpa using hle, rfl, rfl, hgs _⟩
            · rw [if_neg hcf] at hrun
              obtain ⟨hst2, hcode, hresp⟩ := tripleEq hrun
              subst hst2
              subst hresp
              exact ⟨j, _, by simpa using hle, rfl, rfl, hgs _⟩
          | ok _ =>
            rw [hff] at hrun
            dsimp only at hrun
            cases hstt : env.statResult with
            | error e =>
              rw [hstt] at hrun
              dsimp only at hrun
              obtain ⟨hst2, hcode, hresp⟩ := tripleEq hrun
              subst hst2
              subst hresp
              exact ⟨j, _, by simpa using hle, rfl, rfl, hgs _⟩
            | ok sz =>
              rw [hstt] at hrun
              dsimp only at hrun
              cases hup : env.uploadResult with
              | error e =>
                rw [hup] at hrun
                dsimp only at hrun
                obtain ⟨hst2, hcode, hresp⟩ := tripleEq hrun
                subst hst2
                subst hresp
                exact ⟨j, _, by simpa using hle, rfl, rfl, hgs _⟩
              | ok _ =>
                rw [hup] at hrun
                dsimp only at hrun
                obtain ⟨hst2, hcode, hresp⟩ := tripleEq hrun
                rw [hresp] at hfail
                simp at hfail

/-- A one-segment request whose upload step fails, for the C10 witness. -/
def envC10 : ConcatEnv :=
  ⟨7, "ctx", .ok (), false, fun _ => false, fun _ => .ok (), .ok (), .ok (),
   false, .ok 1, .ok 5, .error "boom"⟩

/-- The request used by the C10 witness. -/
def reqC10 : ConcatRequest := ⟨"ep", ["u"], "out", ⟨"", "", "", ""⟩⟩

/-- C10 witness: the failed-upload job leaves the job's identity and
counters in the error status. -/
theorem claim_C10_witness :
    ∃ k msg, k ≤ reqC10.segments.length ∧
      (handleConcat envC10 "POST" (.ok reqC10) idleStatus).2.2 = errResponse msg ∧
      (handleConcat envC10 "POST" (.ok reqC10) idleStatus).1 =
        ⟨"error", reqC10.episodeID, some envC10.now, reqC10.segments.length, k, msg⟩ ∧
      handleStatus "GET" (handleConcat envC10 "POST" (.ok reqC10) idleStatus).1 =
        ((handleConcat envC10 "POST" (.ok reqC10) idleStatus).1,
          some (handleConcat envC10 "POST" (.ok reqC10) idleStatus).1) :=
  claim_C10 envC10 reqC10 idleStatus _ _ _ (by decide) (by decide) rfl rfl

theorem decFold (ds : JsStr) : ∀ (a : Nat),
    ds.foldl (fun a c => a * 10 + (c - 48)) a = a * 10 ^ ds.length + decValue ds := by
  induction ds with
  | nil => intro a; simp [decValue]
  | cons c rest ih =>
    intro a
    show rest.foldl _ (a * 10 + (c - 48)) = _
    rw [ih (a * 10 + (c - 48))]
    have hv : decValue (c :: rest) = (0 * 10 + (c - 48)) * 10 ^ rest.length + decValue rest := by
      show rest.foldl _ (0 * 10 + (c - 48)) = _
      rw [ih (0 * 10 + (c - 48))]
    rw [hv]
    simp [List.length_cons]
    ring

theorem decValue_cons (c : Nat) (rest : JsStr) :
    decValue (c :: rest) = (c - 48) * 10 ^ rest.length + decValue rest := by
  show rest.foldl _ (0 * 10 + (c - 48)) = _
  rw [decFold rest (0 * 10 + (c - 48))]
  ring_nf

theorem decValue_append (a b : JsStr) :
    decValue (a ++ b) = decValue a * 10 ^ b.length + decValue b := by
  unfold decValue
  rw [List.foldl_append]
  exact decFold b _

theorem decValue_replicate48 (j : Nat) (ds : JsStr) :
    decValue (List.replicate j 48 ++ ds) = decValue ds := by
  rw [decValue_append]
  have hz : decValue (List.replicate j 48) = 0 := by
    induction j with
    | zero => rfl
    | succ n ih => rw [List.replicate_succ, decValue_cons, ih]; simp
  rw [hz]
  simp

theorem decValue_natDecAux : ∀ (fuel n : Nat), n < 10 ^ fuel →
    decValue (natDecAux fuel n) = n := by
  intro fuel
  induction fuel with
  | zero =>
    intro n hn
    have h0 : n = 0 := by simpa using hn
    subst h0
    rfl
  | succ f ih =>
    intro n hn
    unfold natDecAux
    split
    · rename_i h10
      rw [decValue_cons]
      show (48 + n - 48) * 10 ^ 0 + decValue [] = n
      simp [decValue]
    · rename_i h10
      rw [decValue_append, decValue_cons]
      rw [ih (n / 10) (by
        rw [Nat.div_lt_iff_lt_mul (by norm_num : 0 < 10)]
        calc n < 10 ^ (f + 1) := hn
        _ = 10 ^ f * 10 := by rw [pow_succ])]
      show n / 10 * 10 ^ 1 + ((48 + n % 10 - 48) * 10 ^ 0 + decValue []) = n
      simp [decValue]
      omega

theorem natDecAux_digits : ∀ (fuel n c : Nat),
    c ∈ natDecAux fuel n → isDigit c = true := by
  intro fuel
  induction fuel with
  | zero => intro n c hc; simp [natDecAux] at hc
  | succ f ih =>
    intro n c hc
    unfold natDecAux at hc
    split at hc
    · rename_i h10
      rw [List.mem_singleton] at hc
      subst hc
      simp only [isDigit, Bool.and_eq_true, decide_eq_true_eq]
      omega
    · rcases List.mem_append.mp hc with hm | hm
      · exact ih _ _ hm
      · rw [List.mem_singleton] at hm
        subst hm
        have := Nat.mod_lt n (show 0 < 10 by norm_num)
        simp only [isDigit, Bool.and_eq_true, decide_eq_true_eq]
        omega

theorem natDecAux_length : ∀ (fuel n k : Nat), 0 < k → n < 10 ^ k →
    (natDecAux fuel n).length ≤ k := by
  intro fuel
  induction fuel with
  | zero => intro n k _ _; simp [natDecAux]
  | succ f ih =>
    intro n k hk hn
    unfold natDecAux
    split
    · simpa using hk
    · rename_i hge
      rw [List.length_append]
      have hk2 : 2 ≤ k := by
        by_contra hlt
        have hk1 : k = 1 := by omega
        subst hk1
        simp at hn
        omega
      have hdiv : n / 10 < 10 ^ (k - 1) := by
        rw [Nat.div_lt_iff_lt_mul (by norm_num : 0 < 10)]
        have hk1 : k - 1 + 1 = k := by omega
        calc n < 10 ^ k := hn
        _ = 10 ^ (k - 1) * 10 := by rw [← hk1, pow_succ, hk1]
      have hrec := ih (n / 10) (k - 1) (by omega) hdiv
      simp only [List.length_cons, List.length_nil]
      omega

theorem natDecAux_ne_nil (fuel n : Nat) : natDecAux (fuel + 1) n ≠ [] := by
  unfold natDecAux
  split
  · simp
  · simp

theorem decValue_natDecDigits (n : Nat) : decValue (natDecDigits n) = n := by
  have hn : n < 10 ^ (n + 1) := by
    calc n < 10 ^ n := Nat.lt_pow_self (by norm_num) n
    _ ≤ 10 ^ (n + 1) := Nat.pow_le_pow_right (by norm_num) (by omega)
  exact decValue_natDecAux (n + 1) n hn

theorem natDecDigits_digits (n c : Nat) (hc : c ∈ natDecDigits n) : isDigit c = true :=
  natDecAux_digits (n + 1) n c hc

theorem natDecDigits_ne_nil (n : Nat) : natDecDigits n ≠ [] :=
  natDecAux_ne_nil n n

theorem isDigit_props {c : Nat} (h : isDigit c = true) :
    isJsWs c = false ∧ c ≠ 45 ∧ c ≠ 43 ∧ c ≠ 46 ∧ c ≠ 101 ∧ c ≠ 69 := by
  simp only [isDigit, Bool.and_eq_true, decide_eq_true_eq] at h
  refine ⟨?_, by omega, by omega, by omega, by omega, by omega⟩
  simp only [isJsWs, Bool.or_eq_false_iff, Bool.and_eq_false_iff,
    decide_eq_false_iff_not]
  omega

theorem dropWhile_all_digits {l : JsStr} (h : ∀ c ∈ l, isDigit c = true) :
    l.dropWhile isJsWs = l := by
  cases l with
  | nil => rfl
  | cons c rest =>
    rw [List.dropWhile_cons]
    rw [(isDigit_props (h c (by simp))).1]
    simp

theorem takeWhile_all {p : Nat → Bool} : ∀ {l : JsStr},
    (∀ c ∈ l, p c = true) → l.takeWhile p = l := by
  intro l
  induction l with
  | nil => intro _; rfl
  | cons c rest ih =>
    intro h
    rw [List.takeWhile_cons, h c (by simp)]
    simp only [if_true]
    rw [ih (fun d hd => h d (by simp [hd]))]

theorem takeWhile_append_stop {p : Nat → Bool} (x : Nat) (b : JsStr)
    (hx : p x = false) : ∀ (a : JsStr), (∀ c ∈ a, p c = true) →
    (a ++ x :: b).takeWhile p = a := by
  intro a
  induction a with
  | nil =>
    intro _
    rw [List.nil_append, List.takeWhile_cons, hx]
    simp
  | cons c rest ih =>
    intro h
    rw [List.cons_append, List.takeWhile_cons, h c (by simp)]
    simp only [if_true]
    rw [ih (fun d hd => h d (by simp [hd]))]

theorem parseSign_digit {c : Nat} (rest : JsStr) (hc : isDigit c = true) :
    parseSign (c :: rest) = (1, c :: rest) := by
  obtain ⟨_, h45, h43, _, _, _⟩ := isDigit_props hc
  unfold parseSign
  rw [if_neg (by simp [h45]), if_neg (by simp [h43])]

theorem parseFrac_dot (b : JsStr) (hb : ∀ c ∈ b, isDigit c = true) :
    parseFrac (46 :: b) = (b, []) := by
  unfold parseFrac
  rw [if_pos (by simp)]
  simp only [List.drop_one, List.tail_cons]
  rw [takeWhile_all hb]
  simp

theorem parseFrac_nil : parseFrac [] = ([], []) := rfl

theorem parseExp_nil : parseExp [] = 0 := rfl

theorem parseFloat_digits (ds : JsStr) (hne : ds ≠ [])
    (hd : ∀ c ∈ ds, isDigit c = true) :
    parseFloatJs ds = some ((decValue ds : ℚ)) := by
  obtain ⟨c, rest, rfl⟩ := List.exists_cons_of_ne_nil hne
  unfold parseFloatJs
  dsimp only
  rw [dropWhile_all_digits hd]
  rw [parseSign_digit rest (hd c (by simp))]
  simp only
  rw [takeWhile_all hd]
  rw [List.drop_length]
  rw [parseFrac_nil]
  simp only
  rw [if_neg (by simp)]
  rw [parseExp_nil]
  simp [decValue]

theorem parseFloat_int_frac (a b : JsStr) (hane : a ≠ [])
    (ha : ∀ c ∈ a, isDigit c = true) (hb : ∀ c ∈ b, isDigit c = true) :
    parseFloatJs (a ++ 46 :: b) =
      some ((decValue a : ℚ) + (decValue b : ℚ) / 10 ^ b.length) := by
  obtain ⟨c, rest, rfl⟩ := List.exists_cons_of_ne_nil hane
  unfold parseFloatJs
  have hws : ((c :: rest) ++ 46 :: b).dropWhile isJsWs = (c :: rest) ++ 46 :: b := by
    rw [List.cons_append, List.dropWhile_cons,
      (isDigit_props (ha c (by simp))).1]
    simp
  dsimp only
  rw [hws]
  have hsgn : parseSign ((c :: rest) ++ 46 :: b) = (1, (c :: rest) ++ 46 :: b) := by
    rw [List.cons_append]
    exact parseSign_digit _ (ha c (by simp))
  rw [hsgn]
  simp only
  rw [takeWhile_append_stop 46 b (by simp [isDigit]) (c :: rest) ha]
  rw [List.drop_left]
  rw [parseFrac_dot b hb]
  simp only
  rw [if_neg (by simp)]
  rw [parseExp_nil]
  simp

theorem finiteDecimal_dvd {q : ℚ} (h : finiteDecimal q) :
    q.den ∣ 10 ^ (max (powIn 2 q.den) (powIn 5 q.den)) := by
  have h10 : (10 : ℕ) ^ (max (powIn 2 q.den) (powIn 5 q.den)) =
      2 ^ (max (powIn 2 q.den) (powIn 5 q.den)) *
      5 ^ (max (powIn 2 q.den) (powIn 5 q.den)) := by
    rw [← Nat.mul_pow]
  rw [h10]
  conv_lhs => rw [h]
  exact Nat.mul_dvd_mul (pow_dvd_pow 2 (le_max_left _ _))
    (pow_dvd_pow 5 (le_max_right _ _))

theorem parseFloat_posRatToString {q : ℚ} (h0 : 0 ≤ q) (hf : finiteDecimal q) :
    parseFloatJs (posRatToString q) = some q ∧ posRatToString q ≠ [] := by
  unfold posRatToString
  dsimp only
  set k := max (powIn 2 q.den) (powIn 5 q.den) with hkdef
  set m := (q * (10 : ℚ) ^ k).num.toNat with hmdef
  obtain ⟨c, hc⟩ := finiteDecimal_dvd hf
  rw [← hkdef] at hc
  have hden_pos : 0 < q.den := Nat.pos_of_ne_zero q.den_nz
  have hdq : ((q.den : ℚ)) ≠ 0 := Nat.cast_ne_zero.mpr q.den_nz
  have hqden : q * (q.den : ℚ) = (q.num : ℚ) := Rat.mul_den_eq_num q
  have heq : q * (10 : ℚ) ^ k = ((q.num * (c : ℤ) : ℤ) : ℚ) := by
    have h10c : ((10 : ℚ)) ^ k = ((q.den : ℚ)) * (c : ℚ) := by
      calc ((10 : ℚ)) ^ k = ((10 ^ k : ℕ) : ℚ) := by push_cast; ring
      _ = (((q.den * c : ℕ)) : ℚ) := by rw [hc]
      _ = ((q.den : ℚ)) * (c : ℚ) := by push_cast; ring
    rw [h10c, ← mul_assoc, hqden]
    push_cast
    ring
  have hnum0 : 0 ≤ (q * (10 : ℚ) ^ k).num := by
    rw [heq, Rat.intCast_num]
    exact mul_nonneg (Rat.num_nonneg.mpr h0) (Int.natCast_nonneg c)
  have hmz : (m : ℤ) = q.num * (c : ℤ) := by
    rw [hmdef, Int.toNat_of_nonneg hnum0, heq, Rat.intCast_num]
  have hq : q = (m : ℚ) / 10 ^ k := by
    have hpow : ((10 : ℚ)) ^ k ≠ 0 := by positivity
    rw [eq_div_iff hpow, heq]
    exact_mod_cast hmz.symm
  by_cases hk0 : k = 0
  · rw [if_pos hk0]
    refine ⟨?_, natDecDigits_ne_nil m⟩
    rw [parseFloat_digits _ (natDecDigits_ne_nil m) (natDecDigits_digits m)]
    rw [decValue_natDecDigits]
    rw [hq, hk0]
    norm_num
  · rw [if_neg hk0]
    constructor
    · have hassoc : natDecDigits (m / 10 ^ k) ++ [46] ++
          (List.replicate (k - (natDecDigits (m % 10 ^ k)).length) 48 ++
            natDecDigits (m % 10 ^ k)) =
          natDecDigits (m / 10 ^ k) ++ 46 ::
          (List.replicate (k - (natDecDigits (m % 10 ^ k)).length) 48 ++
            natDecDigits (m % 10 ^ k)) := by
        rw [List.append_assoc]
        rfl
      rw [hassoc]
      rw [parseFloat_int_frac _ _ (natDecDigits_ne_nil _)
        (natDecDigits_digits _)
        (by
          intro d hd
          rcases List.mem_append.mp hd with hm | hm
          · rw [List.eq_of_mem_replicate hm]; rfl
          · exact natDecDigits_digits _ _ hm)]
      rw [decValue_natDecDigits, decValue_replicate48, decValue_natDecDigits]
      have hflen : (natDecDigits (m % 10 ^ k)).length ≤ k :=
        natDecAux_length _ _ k (Nat.pos_of_ne_zero hk0)
          (Nat.mod_lt _ (by positivity))
      have hlen : (List.replicate (k - (natDecDigits (m % 10 ^ k)).length) 48 ++
          natDecDigits (m % 10 ^ k)).length = k := by
        rw [List.length_append, List.length_replicate]
        omega
      rw [hlen, hq]
      congr 1
      have hmod : m / 10 ^ k * 10 ^ k + m % 10 ^ k = m := Nat.div_add_mod' m (10 ^ k)
      have hpow : ((10 : ℚ)) ^ k ≠ 0 := by positivity
      field_simp
      exact_mod_cast hmod
    · simp [natDecDigits_ne_nil]

/-- C2: for every store, non-empty key, byte sequence and duration d ≥ 0
with finite decimal expansion (every finite binary float has one),
`saveCachedSegment` followed by `getCachedSegment` on the same key, with
no intervening writes and no store failure, returns exactly the stored
bytes and the duration: the `toString`/`parseFloat` metadata round trip
is lossless. -/
theorem claim_C2 (store : R2Store) (key : JsStr) (audio : List Nat) (d : ℚ)
    (hk : key ≠ []) (hd : 0 ≤ d) (hfin : finiteDecimal d) :
    getCachedSegment (saveCachedSegment store key audio d) key =
      some ⟨audio, some d⟩ := by
  unfold getCachedSegment saveCachedSegment getCachedSegmentFrom r2Put
  rw [if_pos rfl]
  have hnum : numToString d = posRatToString d := by
    unfold numToString
    rw [if_neg (not_lt.mpr hd)]
  obtain ⟨hp, hne⟩ := parseFloat_posRatToString hd hfin
  show (match metaLookup [(jstr "duration", numToString d)] (jstr "duration") with
    | none => none
    | some ds => if ds = [] then none
      else some (⟨audio, parseFloatJs ds⟩ : CachedSegment)) = _
  unfold metaLookup
  rw [if_pos rfl]
  show (if numToString d = [] then none
    else some (⟨audio, parseFloatJs (numToString d)⟩ : CachedSegment)) = _
  rw [hnum, if_neg hne, hp]

/-- C2 witness: the concrete round trip at duration 5.5 over the empty
store. -/
theorem claim_C2_witness :
    (jstr "k" ≠ ([] : JsStr)) ∧
    (0 : ℚ) ≤ (⟨11, 2, by decide, by decide⟩ : ℚ) ∧
    finiteDecimal (⟨11, 2, by decide, by decide⟩ : ℚ) ∧
    getCachedSegment (saveCachedSegment (fun _ => none) (jstr "k") [1, 2]
        (⟨11, 2, by decide, by decide⟩ : ℚ)) (jstr "k") =
      some ⟨[1, 2], some (⟨11, 2, by decide, by decide⟩ : ℚ)⟩ :=
  ⟨by decide, by decide, by decide,
   claim_C2 _ _ _ _ (by decide) (by decide) (by decide)⟩

/-- `Array.prototype.join("\n")` over lines. -/
def joinLines : List JsStr → JsStr
  | [] => []
  | [l] => l
  | l :: ls => l ++ 10 :: joinLines ls

/-- Reconstruction of a script line from a segment, as C4 states it: a
speaker-label line for spoken segments, a section-heading line for
pauses. -/
def renderSegment (seg : Segment) : JsStr :=
  match seg.text with
  | some t => jstr "**" ++ seg.speaker ++ jstr ":** " ++ t
  | none => jstr "## [Pause]"

/-- Rejoin the rendered lines of the segments, as C4 states it. -/
def reconstructScript (segs : List Segment) : JsStr :=
  joinLines (segs.map renderSegment)

theorem splitLines_no_nl : ∀ (x : JsStr), 10 ∉ x → splitLines x = [x] := by
  intro x
  induction x with
  | nil => intro _; rfl
  | cons c rest ih =>
    intro h
    have hc : ¬ c = 10 := fun hc => h (hc ▸ List.mem_cons_self c rest)
    unfold splitLines
    rw [if_neg hc]
    rw [ih (fun hm => h (List.mem_cons_of_mem c hm))]

theorem splitLines_append_nl : ∀ (l : JsStr) (t : JsStr), 10 ∉ l →
    splitLines (l ++ 10 :: t) = l :: splitLines t := by
  intro l
  induction l with
  | nil =>
    intro t _
    show splitLines (10 :: t) = [] :: splitLines t
    conv_lhs => unfold splitLines
    rw [if_pos rfl]
  | cons c rest ih =>
    intro t h
    have hc : ¬ c = 10 := fun hc => h (hc ▸ List.mem_cons_self c rest)
    show splitLines (c :: (rest ++ 10 :: t)) = (c :: rest) :: splitLines t
    conv_lhs => unfold splitLines
    rw [if_neg hc]
    rw [ih t (fun hm => h (List.mem_cons_of_mem c hm))]

theorem splitLines_joinLines : ∀ (ls : List JsStr), ls ≠ [] →
    (∀ l ∈ ls, 10 ∉ l) → splitLines (joinLines ls) = ls := by
  intro ls
  induction ls with
  | nil => intro h _; exact absurd rfl h
  | cons l rest ih =>
    intro _ h
    cases rest with
    | nil => exact splitLines_no_nl l (h l (by simp))
    | cons l2 rest2 =>
      show splitLines (l ++ 10 :: joinLines (l2 :: rest2)) = _
      rw [splitLines_append_nl l _ (h l (by simp))]
      rw [ih (by simp) (fun x hx => h x (List.mem_cons_of_mem l hx))]

theorem filterMap_eq_self {α : Type} (f : α → Option α) :
    ∀ (l : List α), (∀ x ∈ l, f x = some x) → l.filterMap f = l := by
  intro l
  induction l with
  | nil => intro _; rfl
  | cons x rest ih =>
    intro h
    rw [List.filterMap_cons, h x (by simp)]
    rw [ih (fun y hy => h y (List.mem_cons_of_mem x hy))]

theorem dw_head {p : Nat → Bool} : ∀ {l : JsStr} {c : Nat} {r : JsStr},
    l.dropWhile p = c :: r → p c = false := by
  intro l
  induction l with
  | nil => intro c r h; simp at h
  | cons x xs ih =>
    intro c r h
    rw [List.dropWhile_cons] at h
    by_cases hx : p x
    · rw [hx] at h
      simp only [if_true] at h
      exact ih h
    · rw [Bool.not_eq_true] at hx
      rw [hx] at h
      simp only [Bool.false_eq_true, if_false] at h
      obtain ⟨rfl, _⟩ := List.cons.inj h.symm
      exact hx

theorem dw_getLast? {p : Nat → Bool} : ∀ (l : JsStr), l.dropWhile p ≠ [] →
    (l.dropWhile p).getLast? = l.getLast? := by
  intro l
  induction l with
  | nil => intro h; exact absurd rfl h
  | cons x xs ih =>
    intro h
    rw [List.dropWhile_cons] at h ⊢
    by_cases hx : p x
    · rw [hx] at h ⊢
      simp only [if_true] at h ⊢
      have hxs : xs ≠ [] := by
        intro he
        subst he
        exact h rfl
      obtain ⟨y, ys, rfl⟩ := List.exists_cons_of_ne_nil hxs
      rw [List.getLast?_cons_cons]
      exact ih h
    · rw [Bool.not_eq_true] at hx
      rw [hx]
      simp

theorem dw_idem (p : Nat → Bool) (l : JsStr) :
    (l.dropWhile p).dropWhile p = l.dropWhile p := by
  cases hd : l.dropWhile p with
  | nil => rfl
  | cons c r =>
    rw [List.dropWhile_cons, dw_head hd]
    simp

theorem trimJs_reverse_fix (s : JsStr) :
    (trimJs s).reverse.dropWhile isJsWs = (trimJs s).reverse := by
  unfold trimJs
  rw [List.reverse_reverse]
  exact dw_idem _ _

theorem trimJs_fix (s : JsStr) : (trimJs s).dropWhile isJsWs = trimJs s := by
  cases ht : trimJs s with
  | nil => rfl
  | cons c r =>
    have hcw : isJsWs c = false := by
      unfold trimJs at ht
      have hd2ne : (s.dropWhile isJsWs).reverse.dropWhile isJsWs ≠ [] := by
        intro he
        rw [he] at ht
        simp at ht
      have h1 : ((s.dropWhile isJsWs).reverse.dropWhile isJsWs).reverse.head? =
          some c := by rw [ht]; rfl
      rw [List.head?_reverse] at h1
      rw [dw_getLast? _ hd2ne] at h1
      rw [List.getLast?_reverse] at h1
      cases hd1 : s.dropWhile isJsWs with
      | nil => rw [hd1] at h1; simp at h1
      | cons c2 r2 =>
        rw [hd1] at h1
        simp only [List.head?_cons, Option.some.injEq] at h1
        subst h1
        exact dw_head hd1
    rw [List.dropWhile_cons, hcw]
    simp

theorem collapseWsAux_mem : ∀ (fuel : Nat) (s : JsStr) (c : Nat),
    c ∈ collapseWsAux fuel s → c = 32 ∨ isJsWs c = false := by
  intro fuel
  induction fuel with
  | zero => intro s c hc; simp [collapseWsAux] at hc
  | succ f ih =>
    intro s c hc
    match s with
    | [] => simp [collapseWsAux] at hc
    | x :: rest =>
      unfold collapseWsAux at hc
      split at hc
      · rcases List.mem_cons.mp hc with h32 | hm
        · exact Or.inl h32
        · exact ih _ _ hm
      · rename_i hx
        rcases List.mem_cons.mp hc with hxc | hm
        · subst hxc
          exact Or.inr (by rwa [Bool.not_eq_true] at hx)
        · exact ih _ _ hm

theorem trimJs_mem {c : Nat} {l : JsStr} (h : c ∈ trimJs l) : c ∈ l := by
  unfold trimJs at h
  rw [List.mem_reverse] at h
  have h2 : c ∈ (l.dropWhile isJsWs).reverse := (List.dropWhile_sublist _).mem h
  rw [List.mem_reverse] at h2
  exact (List.dropWhile_sublist _).mem h2

theorem cleanFix_facts {t : JsStr} (h : cleanText t = t) :
    t.dropWhile isJsWs = t ∧ t.reverse.dropWhile isJsWs = t.reverse ∧
    (∀ c ∈ t, c = 32 ∨ isJsWs c = false) := by
  refine ⟨?_, ?_, ?_⟩
  · have h1 : (cleanText t).dropWhile isJsWs = cleanText t := trimJs_fix _
    rwa [h] at h1
  · have h1 : (cleanText t).reverse.dropWhile isJsWs = (cleanText t).reverse :=
      trimJs_reverse_fix _
    rwa [h] at h1
  · intro c hc
    rw [← h] at hc
    unfold cleanText at hc
    have h2 := trimJs_mem hc
    unfold collapseWs at h2
    exact collapseWsAux_mem _ _ _ h2

theorem lineTerm_imp_ws {c : Nat} (h : isLineTerm c = true) : isJsWs c = true := by
  simp only [isLineTerm, Bool.or_eq_true, decide_eq_true_eq] at h
  simp only [isJsWs, Bool.or_eq_true, Bool.and_eq_true, decide_eq_true_eq]
  omega

theorem dropWhile_append_fix {p : Nat → Bool} {a : JsStr} (b : JsStr)
    (ha : a.dropWhile p = a) (hane : a ≠ []) :
    (a ++ b).dropWhile p = a ++ b := by
  obtain ⟨c, r, rfl⟩ := List.exists_cons_of_ne_nil hane
  by_cases hpc : p c
  · exfalso
    rw [List.dropWhile_cons, if_pos hpc] at ha
    have h1 := congrArg List.length ha
    have h2 := dropWhile_length_le p r
    simp only [List.length_cons] at h1
    omega
  · rw [Bool.not_eq_true] at hpc
    rw [List.cons_append, List.dropWhile_cons, hpc]
    simp

theorem takeWhile_notLT {t : JsStr} (hmem : ∀ c ∈ t, c = 32 ∨ isJsWs c = false) :
    t.takeWhile (fun c => !isLineTerm c) = t := by
  apply takeWhile_all
  intro c hc
  rcases hmem c hc with h32 | hws
  · subst h32
    rfl
  · simp only [Bool.not_eq_true']
    by_contra hlt
    rw [Bool.not_eq_false] at hlt
    rw [lineTerm_imp_ws hlt] at hws
    exact Bool.true_eq_false.mp hws

theorem speakerMatchAt_ERIC {t : JsStr}
    (hdw : t.dropWhile isJsWs = t) (hmem : ∀ c ∈ t, c = 32 ∨ isJsWs c = false) :
    speakerMatchAt (42 :: 42 :: 69 :: 82 :: 73 :: 67 :: 58 :: 42 :: 42 :: 32 :: t) =
      some ([69, 82, 73, 67], t) := by
  unfold speakerMatchAt
  dsimp only
  rw [if_pos ⟨rfl, rfl⟩]
  have hrun : (69 :: 82 :: 73 :: 67 :: 58 :: 42 :: 42 :: 32 :: t).takeWhile isUpperAZ =
      [69, 82, 73, 67] := by
    simp [List.takeWhile_cons, isUpperAZ]
  rw [hrun]
  rw [if_pos ⟨by norm_num, rfl⟩]
  have hdrop : (69 :: 82 :: 73 :: 67 :: 58 :: 42 :: 42 :: 32 :: t).drop
      ([69, 82, 73, 67].length + 3) = 32 :: t := rfl
  rw [hdrop]
  rw [List.dropWhile_cons]
  norm_num [isJsWs]
  rw [hdw, takeWhile_notLT hmem]

theorem speakerMatchAt_MAYA {t : JsStr}
    (hdw : t.dropWhile isJsWs = t) (hmem : ∀ c ∈ t, c = 32 ∨ isJsWs c = false) :
    speakerMatchAt (42 :: 42 :: 77 :: 65 :: 89 :: 65 :: 58 :: 42 :: 42 :: 32 :: t) =
      some ([77, 65, 89, 65], t) := by
  unfold speakerMatchAt
  dsimp only
  rw [if_pos ⟨rfl, rfl⟩]
  have hrun : (77 :: 65 :: 89 :: 65 :: 58 :: 42 :: 42 :: 32 :: t).takeWhile isUpperAZ =
      [77, 65, 89, 65] := by
    simp [List.takeWhile_cons, isUpperAZ]
  rw [hrun]
  rw [if_pos ⟨by norm_num, rfl⟩]
  have hdrop : (77 :: 65 :: 89 :: 65 :: 58 :: 42 :: 42 :: 32 :: t).drop
      ([77, 65, 89, 65].length + 3) = 32 :: t := rfl
  rw [hdrop]
  rw [List.dropWhile_cons]
  norm_num [isJsWs]
  rw [hdw, takeWhile_notLT hmem]

theorem fsm_render {sp t : JsStr} (hsp : sp = jstr "ERIC" ∨ sp = jstr "MAYA")
    (hdw : t.dropWhile isJsWs = t) (hmem : ∀ c ∈ t, c = 32 ∨ isJsWs c = false) :
    findSpeakerMatch (jstr "**" ++ sp ++ jstr ":** " ++ t) = some (sp, t) := by
  rcases hsp with rfl | rfl
  · show findSpeakerMatch
      (42 :: 42 :: 69 :: 82 :: 73 :: 67 :: 58 :: 42 :: 42 :: 32 :: t) = _
    conv_lhs => unfold findSpeakerMatch
    rw [speakerMatchAt_ERIC hdw hmem]
    rfl
  · show findSpeakerMatch
      (42 :: 42 :: 77 :: 65 :: 89 :: 65 :: 58 :: 42 :: 42 :: 32 :: t) = _
    conv_lhs => unfold findSpeakerMatch
    rw [speakerMatchAt_MAYA hdw hmem]
    rfl

theorem processLine_render_spoken {sp t : JsStr}
    (hsp : sp = jstr "ERIC" ∨ sp = jstr "MAYA") (hne : t ≠ [])
    (hfix : cleanText t = t) :
    processLine (renderSegment ⟨sp, some t⟩) = some ⟨sp, some t⟩ := by
  obtain ⟨hdw, hrevdw, hmem⟩ := cleanFix_facts hfix
  show processLine (jstr "**" ++ sp ++ jstr ":** " ++ t) = _
  have htrevne : t.reverse ≠ [] := by
    intro he
    exact hne (by simpa using congrArg List.reverse he)
  have hlead : (jstr "**" ++ sp ++ jstr ":** " ++ t).dropWhile isJsWs =
      jstr "**" ++ sp ++ jstr ":** " ++ t := by
    rcases hsp with rfl | rfl
    · show (42 :: 42 :: 69 :: 82 :: 73 :: 67 :: 58 :: 42 :: 42 :: 32 :: t).dropWhile
        isJsWs = _
      rw [List.dropWhile_cons]
      norm_num [isJsWs]
      rfl
    · show (42 :: 42 :: 77 :: 65 :: 89 :: 65 :: 58 :: 42 :: 42 :: 32 :: t).dropWhile
        isJsWs = _
      rw [List.dropWhile_cons]
      norm_num [isJsWs]
      rfl
  have htrim : trimJs (jstr "**" ++ sp ++ jstr ":** " ++ t) =
      jstr "**" ++ sp ++ jstr ":** " ++ t := by
    unfold trimJs
    rw [hlead]
    rw [List.reverse_append]
    rw [dropWhile_append_fix _ hrevdw htrevne]
    rw [← List.reverse_append, List.reverse_reverse]
  have hemp : (jstr "**" ++ sp ++ jstr ":** " ++ t).isEmpty = false := by
    rcases hsp with rfl | rfl
    · rfl
    · rfl
  unfold processLine
  rw [htrim]
  dsimp only
  rw [hemp]
  simp only [Bool.false_eq_true, if_false]
  rw [fsm_render hsp hdw hmem]
  dsimp only
  rw [hfix]
  have hempty : t.isEmpty = false := by
    cases t with
    | nil => exact absurd rfl hne
    | cons c r => rfl
  have hcond : (!t.isEmpty && (sp = jstr "ERIC" || sp = jstr "MAYA") : Bool) = true := by
    rw [hempty]
    rcases hsp with rfl | rfl
    · simp
    · simp
  rw [hcond]
  simp

theorem processLine_render_pause :
    processLine (renderSegment ⟨jstr "PAUSE", none⟩) = some ⟨jstr "PAUSE", none⟩ := by
  decide

theorem parseScript_inv (s : JsStr) : ∀ seg ∈ parseScript s,
    (seg.text = none → seg.speaker = jstr "PAUSE") ∧
    (∀ t, seg.text = some t →
      (seg.speaker = jstr "ERIC" ∨ seg.speaker = jstr "MAYA") ∧ t ≠ []) := by
  intro seg hseg
  unfold parseScript at hseg
  rw [List.mem_filterMap] at hseg
  obtain ⟨line, _, hf⟩ := hseg
  unfold processLine at hf
  dsimp only at hf
  split at hf
  · exact absurd hf (by simp)
  · split at hf
    · rename_i speaker raw
      split at hf
      · rename_i hcond
        obtain rfl := Option.some.inj hf
        simp only [Bool.and_eq_true, Bool.not_eq_true', Bool.or_eq_true,
          decide_eq_true_eq] at hcond
        refine ⟨fun habs => by simp at habs, fun t ht => ?_⟩
        obtain rfl := Option.some.inj ht
        refine ⟨hcond.2, ?_⟩
        intro he
        rw [he] at hcond
        exact absurd hcond.1 (by simp)
      · exact absurd hf (by simp)
    · split at hf
      · obtain rfl := Option.some.inj hf
        exact ⟨fun _ => rfl, fun t ht => by simp at ht⟩
      · exact absurd hf (by simp)

theorem render_no_nl {seg : Segment}
    (hinv : (seg.text = none → seg.speaker = jstr "PAUSE") ∧
      (∀ t, seg.text = some t →
        (seg.speaker = jstr "ERIC" ∨ seg.speaker = jstr "MAYA") ∧ t ≠ []))
    (hfix : ∀ t, seg.text = some t → cleanText t = t) :
    10 ∉ renderSegment seg := by
  obtain ⟨sp, topt⟩ := seg
  cases topt with
  | none =>
    have hsp : sp = jstr "PAUSE" := hinv.1 rfl
    subst hsp
    decide
  | some t =>
    obtain ⟨hsp, hne⟩ := hinv.2 t rfl
    have hmem := (cleanFix_facts (hfix t rfl)).2.2
    show 10 ∉ jstr "**" ++ sp ++ jstr ":** " ++ t
    intro h
    rcases List.mem_append.mp h with ha | hT
    · rcases hsp with rfl | rfl
      · revert ha
        decide
      · revert ha
        decide
    · rcases hmem 10 hT with h32 | hws
      · exact absurd h32 (by norm_num)
      · simp [isJsWs] at hws

/-- C4 (amended): re-segmenting the reconstructed text yields the same
segment sequence for every script whose emitted spoken texts are fixed
points of the cleanup pass (which fails only for texts the cleanup
itself would alter again, such as `\x7b\x7ba\x7d\x7d` produced by
removing `*` characters). -/
theorem claim_C4 (s : JsStr)
    (hfix : ∀ seg ∈ parseScript s, ∀ t, seg.text = some t → cleanText t = t) :
    parseScript (reconstructScript (parseScript s)) = parseScript s := by
  by_cases h0 : parseScript s = []
  · rw [h0]
    decide
  · have hinv := parseScript_inv s
    unfold reconstructScript
    have hlines : ∀ l ∈ (parseScript s).map renderSegment, 10 ∉ l := by
      intro l hl
      rw [List.mem_map] at hl
      obtain ⟨seg, hseg, rfl⟩ := hl
      exact render_no_nl (hinv seg hseg) (hfix seg hseg)
    have hnnil : (parseScript s).map renderSegment ≠ [] := by
      simpa using h0
    show ((splitLines (joinLines ((parseScript s).map renderSegment))).filterMap
      processLine) = parseScript s
    rw [splitLines_joinLines _ hnnil hlines]
    rw [List.filterMap_map]
    apply filterMap_eq_self
    intro seg hseg
    obtain ⟨hpause, hspoken⟩ := hinv seg hseg
    obtain ⟨sp, topt⟩ := seg
    cases topt with
    | none =>
      have hsp : sp = jstr "PAUSE" := hpause rfl
      subst hsp
      exact processLine_render_pause
    | some t =>
      obtain ⟨hsp, hne⟩ := hspoken t rfl
      have hf := hfix ⟨sp, some t⟩ hseg t rfl
      exact processLine_render_spoken hsp hne hf

/-- C4 witness: a two-line script whose spoken text is already clean
round-trips exactly. -/
theorem claim_C4_witness :
    parseScript (reconstructScript (parseScript
        (jstr "**ERIC:** Hello\n## [Break]"))) =
      parseScript (jstr "**ERIC:** Hello\n## [Break]") := by
  refine claim_C4 _ ?_
  intro seg hseg t ht
  have hps : parseScript (jstr "**ERIC:** Hello\n## [Break]") =
      [⟨jstr "ERIC", some (jstr "Hello")⟩, ⟨jstr "PAUSE", none⟩] := by decide
  rw [hps] at hseg
  rcases List.mem_cons.mp hseg with rfl | hseg2
  · obtain rfl := Option.some.inj ht
    decide
  · rcases List.mem_cons.mp hseg2 with rfl | hseg3
    · simp at ht
    · simp at hseg3

/-- C4 counterexample: the script `**ERIC:** \x7b*\x7ba\x7d*\x7d` emits
the text `\x7b\x7ba\x7d\x7d` (the stars are removed after the
brace-annotation pass); re-parsing the reconstructed line removes
`\x7b\x7ba\x7d\x7d` as a citation annotation, leaving an empty text and
no segment at all. -/
theorem claim_C4_counterexample :
    parseScript (reconstructScript (parseScript
        (jstr "**ERIC:** \x7b*\x7ba\x7d*\x7d"))) ≠
      parseScript (jstr "**ERIC:** \x7b*\x7ba\x7d*\x7d") := by
  decide
